/-
  Verification of the Spectre AI quota ledger, request scheduler, generation
  executor, token estimators and conversation memory manager.

  The definitions below are a shallow embedding of the TypeScript sources:
    * arduino-ide-extension/src/node/spectre-ai-service-impl.ts
      (quota ledger, scheduler/queue, executor, classifyError, estimateTokens)
    * arduino-ide-extension/src/browser/spectre/memory-manager.ts
      (summarization trigger, memory-bank compression)
    * the TokenCounter utility (src/unnamed/part_003)
    * TIMING_CONSTANTS (common/protocol, spectre-error-handler.ts source file)

  Conventions of the embedding:
    * Timestamps are natural numbers (milliseconds).  `Date.now()` is passed
      in explicitly as a `now` parameter; `getPacificMidnight()` is passed as
      a `pm` parameter (it depends on the wall clock and timezone only).
      JS arithmetic `t < now - 60000` agrees with truncated Nat subtraction
      for non-negative timestamps, which is what the code manipulates.
    * JS `Record<string, T>` objects are modelled as association lists that
      preserve insertion order (JS objects with string keys iterate in
      insertion order); a deleted key is a removed entry.
    * Token amounts are integers (`Int`), since adjustment entries are
      signed deltas.
    * `Math.ceil` over JS numbers is modelled by exact rational ceilings
      (`(a + b - 1) / b` on naturals); JS regular-expression tests used by
      the sources are modelled by executable character-list scans with the
      same matching semantics.
-/
import Mathlib

/-! ### Basic string scanning helpers (model JS `String.includes` / regexes) -/

/-- Does the character list start with the given pattern? -/
def charsStartWith : List Char → List Char → Bool
  | [], _ => true
  | _ :: _, [] => false
  | a :: as, b :: bs => a == b && charsStartWith as bs

/-- Does the pattern occur anywhere in the character list?
(Models JS `String.includes` / an unanchored literal regex test.) -/
def charsContain (needle : List Char) : List Char → Bool
  | [] => charsStartWith needle []
  | c :: rest => charsStartWith needle (c :: rest) || charsContain needle rest

/-- Model of JS `hay.includes(needle)`. -/
def strContains (hay needle : String) : Bool :=
  charsContain needle.toList hay.toList

/-- ASCII lowercasing at the character level (JS `toLowerCase` on the ASCII
patterns the sources match against). -/
def charsToLower (cs : List Char) : List Char := cs.map Char.toLower

/-- Model of JS `String.trim` (strip whitespace from both ends). -/
def jsTrim (s : String) : String :=
  String.mk (((s.toList.dropWhile Char.isWhitespace).reverse.dropWhile
    Char.isWhitespace).reverse)

/-- Model of a case-insensitive literal regex test `/needle/i.test(hay)`. -/
def strContainsCI (hay needle : String) : Bool :=
  charsContain (charsToLower needle.toList) (charsToLower hay.toList)

/-- Model of a case-insensitive alternation regex test
`/p1|p2|.../i.test(hay)` for literal alternatives. -/
def containsAnyCI (hay : String) (pats : List String) : Bool :=
  pats.any (fun p => strContainsCI hay p)

/-- Does `p` hold at any suffix position of the list (including the final
empty position)?  Models an unanchored regex scan. -/
def anyPos (p : List Char → Bool) : List Char → Bool
  | [] => p []
  | c :: rest => p (c :: rest) || anyPos p rest

/-! ### Rate limit constants (spectre-ai-service-impl.ts lines 228-295,
TIMING_CONSTANTS from the common protocol sources) -/

/-- Token capacity per minute (TPM) limit for rolling window - INPUT tokens only. -/
def TOKEN_CAPACITY_PER_MINUTE : Int := 250000

/-- Requests per minute limit for flash model. -/
def RPM_FLASH : Nat := 10

/-- Requests per minute limit for flash-lite model. -/
def RPM_FLASH_LITE : Nat := 15

/-- Requests per day limit for flash model. -/
def RPD_FLASH : Nat := 250

/-- Requests per day limit for flash-lite model. -/
def RPD_FLASH_LITE : Nat := 1000

/-- Rolling window duration for quota tracking (1 minute). -/
def ROLLING_WINDOW_MS : Nat := 60000

/-- Minimum spacing between flash requests to avoid bursting. -/
def MIN_SPACING_MS_FLASH : Nat := 6000

/-- Minimum spacing between flash-lite requests. -/
def MIN_SPACING_MS_FLASH_LITE : Nat := 4000

/-- TIMING_CONSTANTS.QUEUE_PROCESSING_INTERVAL (ms). -/
def QUEUE_PROCESSING_INTERVAL : Nat := 25

/-- TIMING_CONSTANTS.NETWORK_RETRY_BASE_DELAY (ms). -/
def NETWORK_RETRY_BASE_DELAY : Nat := 1000

/-- TIMING_CONSTANTS.SERVICE_OVERLOAD_BASE_DELAY (ms). -/
def SERVICE_OVERLOAD_BASE_DELAY : Nat := 3000

/-! ### Quota ledger data model (spectre-ai-service-impl.ts lines 297-385) -/

/-- A model identifier string, e.g. "gemini-2.5-flash" / "gemini-2.5-flash-lite". -/
abbrev ModelKey := String

/-- Model of `interface TokenUsage` - one entry of a model's rolling token window. -/
structure TokenUsage where
  time : Nat
  tokens : Int
  reservation : Bool
deriving DecidableEq, Repr

/-- Model of `isFlashLite`: `model.includes('flash-lite')` (impl line 420). -/
def isFlashLite (model : String) : Bool :=
  strContains model "flash-lite"

/-- Model of `mapModel` (impl lines 1567-1571). -/
def mapModel (model : String) : String :=
  if model = "gemini-2.5-flash" ∨ model = "gemini-2.5-flash-lite" then model
  else "gemini-2.5-flash"

/-- Association-list lookup (JS `obj[key]`, `undefined` when absent). -/
def lookupA (k : ModelKey) : List (ModelKey × α) → Option α
  | [] => none
  | (k', v) :: rest => if k' = k then some v else lookupA k rest

/-- JS `obj[key] || default` / `obj[key] ?? default`. -/
def getA (m : List (ModelKey × α)) (k : ModelKey) (d : α) : α :=
  (lookupA k m).getD d

/-- Association-list update `obj[key] = v`: replaces the value in place when
the key exists, appends the key otherwise (JS property insertion order). -/
def setA (k : ModelKey) (v : α) : List (ModelKey × α) → List (ModelKey × α)
  | [] => [(k, v)]
  | (k', v') :: rest => if k' = k then (k, v) :: rest else (k', v') :: setA k v rest

/-- The mutable per-model state of `SpectreAiServiceImpl`
(fields declared at impl lines 355-368). -/
structure QuotaState where
  recentCalls : List (ModelKey × List Nat) := []
  dailyCalls : List (ModelKey × List Nat) := []
  lastCallAt : List (ModelKey × Nat) := []
  tokenWindows : List (ModelKey × List TokenUsage) := []
  cachedRpmLists : List (ModelKey × List Nat) := []
  cachedDailyLists : List (ModelKey × List Nat) := []
deriving DecidableEq, Repr

/-! ### cleanWindows (impl lines 824-935) -/

/-- One pass of the token-window cleanup loop of `cleanWindows`
(impl lines 833-854): for each model, count entries older than the cutoff,
filter them out only when they exceed 30% of the window, and delete the key
when the filtered window is empty.  Returns the cleaned map and whether any
cleaning was done (`needRebuildCache`). -/
def cleanTokenLists (cutoff : Nat) :
    List (ModelKey × List TokenUsage) → List (ModelKey × List TokenUsage) × Bool
  | [] => ([], false)
  | (k, w) :: rest =>
    let (rest', flag) := cleanTokenLists cutoff rest
    if w.length = 0 then ((k, w) :: rest', flag)
    else
      let expiredCount := (w.filter (fun e => e.time < cutoff)).length
      if 3 * w.length < 10 * expiredCount then
        let w' := w.filter (fun e => cutoff ≤ e.time)
        (if w'.length = 0 then rest' else (k, w') :: rest', true)
      else ((k, w) :: rest', flag)

/-- Cleanup loop for the RPM / RPD timestamp maps (impl lines 856-898),
same 30% amortization policy as `cleanTokenLists`. -/
def cleanTimeLists (cutoff : Nat) :
    List (ModelKey × List Nat) → List (ModelKey × List Nat) × Bool
  | [] => ([], false)
  | (k, l) :: rest =>
    let (rest', flag) := cleanTimeLists cutoff rest
    if l.length = 0 then ((k, l) :: rest', flag)
    else
      let expiredCount := (l.filter (fun t => t < cutoff)).length
      if 3 * l.length < 10 * expiredCount then
        let l' := l.filter (fun t => cutoff ≤ t)
        (if l'.length = 0 then rest' else (k, l') :: rest', true)
      else ((k, l) :: rest', flag)

/-- Rebuild of a cached filtered list map (impl lines 906-916 / 919-933). -/
def rebuildCache (cutoff : Nat) (src : List (ModelKey × List Nat)) :
    List (ModelKey × List Nat) :=
  src.map (fun kv => (kv.1, kv.2.filter (fun t => cutoff ≤ t)))

/-- Model of `cleanWindows` (impl lines 824-935): amortized pruning of the token
windows, RPM lists and RPD lists, followed by a cache rebuild only when
something was pruned, or a cache population only when a cache is empty. -/
def cleanWindows (now pm : Nat) (s : QuotaState) : QuotaState :=
  let rpmCutoff := now - ROLLING_WINDOW_MS
  let tw := cleanTokenLists rpmCutoff s.tokenWindows
  let rc := cleanTimeLists rpmCutoff s.recentCalls
  let dc := cleanTimeLists pm s.dailyCalls
  let needRebuildCache := tw.2 || rc.2 || dc.2
  let cachedRpm :=
    if needRebuildCache then rebuildCache rpmCutoff rc.1
    else if s.cachedRpmLists.isEmpty then rebuildCache rpmCutoff rc.1
    else s.cachedRpmLists
  let cachedDaily :=
    if needRebuildCache then rebuildCache pm dc.1
    else if s.cachedDailyLists.isEmpty then rebuildCache pm dc.1
    else s.cachedDailyLists
  { recentCalls := rc.1, dailyCalls := dc.1, lastCallAt := s.lastCallAt,
    tokenWindows := tw.1, cachedRpmLists := cachedRpm,
    cachedDailyLists := cachedDaily }

/-! ### Admission check (impl lines 620-655) -/

/-- Sum of the token amounts of one window. -/
def windowSum (w : List TokenUsage) : Int :=
  w.foldl (fun acc e => acc + e.tokens) 0

/-- Model of `currentUsedTokens` (impl lines 649-655): sums the entries of the token
windows of ALL model keys - `Object.values(this.tokenWindows).reduce(...)`. -/
def currentUsedTokens (tw : List (ModelKey × List TokenUsage)) : Int :=
  tw.foldl (fun total kv => total + windowSum kv.2) 0

/-- The TPM headroom condition of `canStartNow` (impl lines 635-637):
passes iff `used + reservationTokens` does not exceed the ceiling. -/
def tpmHeadroomOk (tw : List (ModelKey × List TokenUsage))
    (reservationTokens : Int) : Bool :=
  !(TOKEN_CAPACITY_PER_MINUTE < currentUsedTokens tw + reservationTokens)

/-- The four checks of `canStartNow` (impl lines 622-646), evaluated on a
state on which `this.cleanWindows()` has already run.  Note that the RPM and
RPD checks read the CACHED filtered lists (`cachedRpmLists` /
`cachedDailyLists`), exactly as the source does. -/
def canStartNowChecks (now : Nat) (s : QuotaState) (model : ModelKey)
    (reservationTokens : Int) : Bool :=
  let rpmLimit := if isFlashLite model then RPM_FLASH_LITE else RPM_FLASH
  let rpmList := getA s.cachedRpmLists model []
  if rpmLimit ≤ rpmList.length then false
  else
    let rpdLimit := if isFlashLite model then RPD_FLASH_LITE else RPD_FLASH
    let dailyList := getA s.cachedDailyLists model []
    if rpdLimit ≤ dailyList.length then false
    else
      if !tpmHeadroomOk s.tokenWindows reservationTokens then false
      else
        let last := getA s.lastCallAt model 0
        let minSpacing :=
          if isFlashLite model then MIN_SPACING_MS_FLASH_LITE else MIN_SPACING_MS_FLASH
        decide (minSpacing ≤ now - last)

/-- Model of `canStartNow` (impl lines 620-647): first mutates the state through
`cleanWindows`, then evaluates the four admission checks. -/
def canStartNow (now pm : Nat) (s : QuotaState) (model : ModelKey)
    (reservationTokens : Int) : Bool :=
  canStartNowChecks now (cleanWindows now pm s) model reservationTokens

/-! ### Ledger mutations (impl lines 755-815, 945-981, 1105, 1205-1222) -/

/-- Model of `recordReservation` (impl lines 755-763): append a reservation entry to
the model's token window, then `cleanWindows`. -/
def recordReservation (now pm : Nat) (s : QuotaState) (model : ModelKey)
    (tokens : Int) : QuotaState :=
  let w := getA s.tokenWindows model []
  cleanWindows now pm
    { s with
        tokenWindows :=
          setA model (w ++ [(⟨now, tokens, true⟩ : TokenUsage)]) s.tokenWindows }

/-- Model of `adjustReservation` (impl lines 764-779): when `actual ≠ reserved`,
append a signed delta entry, then `cleanWindows`; otherwise do nothing. -/
def adjustReservation (now pm : Nat) (s : QuotaState) (model : ModelKey)
    (actual reservation : Int) : QuotaState :=
  let delta := actual - reservation
  if delta ≠ 0 then
    let w := getA s.tokenWindows model []
    cleanWindows now pm
      { s with
          tokenWindows :=
            setA model (w ++ [(⟨now, delta, false⟩ : TokenUsage)]) s.tokenWindows }
  else s

/-- Model of `recordRpm` (impl lines 786-815): push the current timestamp onto the RPM
and RPD lists; lazily filter them only past the 100 / 200 entry thresholds.
Note that it never touches the cached filtered lists. -/
def recordRpm (now pm : Nat) (s : QuotaState) (model : ModelKey) : QuotaState :=
  let rc := getA s.recentCalls model [] ++ [now]
  let dc := getA s.dailyCalls model [] ++ [now]
  let rc := if 100 < rc.length then rc.filter (fun t => now - ROLLING_WINDOW_MS ≤ t) else rc
  let dc := if 200 < dc.length then dc.filter (fun t => pm ≤ t) else dc
  { s with recentCalls := setA model rc s.recentCalls,
           dailyCalls := setA model dc s.dailyCalls }

/-! ### Request scheduler / queue (impl lines 438-614, 945-981) -/

/-- Model of `interface PendingRequest` (impl lines 321-329), restricted to the fields
the scheduler reads (the payload and the continuations are opaque). -/
structure Pending where
  id : Nat
  model : ModelKey
  reservationTokens : Int
  enqueuedAt : Nat
deriving DecidableEq, Repr

/-- Scheduler state: the quota ledger, the FIFO queue (impl line 371) and a
log of started requests as (id, start time) pairs in start order (the log
records the calls to `startRequest`). -/
structure SchedState where
  quota : QuotaState := {}
  queue : List Pending := []
  startedLog : List (Nat × Nat) := []
deriving DecidableEq, Repr

/-- The state mutations of `startRequest` (impl lines 945-981) together with
the `this.lastCallAt[model] = Date.now()` assignment performed by
`executeStandardGeneration` (impl line 1105) once pacing completes.  The
request was admitted at `now`, so the pacing delay is zero and the call
timestamp equals the admission timestamp.  Takes the quota state already
cleaned by the preceding `canStartNow`. -/
def startRequestRecord (now pm : Nat) (q : QuotaState) (model : ModelKey)
    (reservationTokens : Int) : QuotaState :=
  let q := recordReservation now pm q model reservationTokens
  let q := recordRpm now pm q model
  let q := cleanWindows now pm q
  { q with lastCallAt := setA model now q.lastCallAt }

/-- The admission decision of `generate` (impl lines 509-516): run
`canStartNow` (which mutates the state through `cleanWindows`); if it passes,
start the request immediately, otherwise append it to the queue (the queued
branch additionally runs `pushQuotaUpdate`, i.e. one more `cleanWindows`). -/
def submit (now pm : Nat) (st : SchedState) (p : Pending) : SchedState :=
  let q := cleanWindows now pm st.quota
  if canStartNowChecks now q p.model p.reservationTokens then
    { quota := startRequestRecord now pm q p.model p.reservationTokens,
      queue := st.queue,
      startedLog := st.startedLog ++ [(p.id, now)] }
  else
    { quota := cleanWindows now pm q,
      queue := st.queue ++ [p],
      startedLog := st.startedLog }

/-- Model of `runQueueCycle` (impl lines 588-614): clean the windows, inspect only the
HEAD of the queue, and start it iff `canStartNow` passes (which cleans
again); a successful start is followed by `pushQuotaUpdate`, i.e. one more
`cleanWindows`.  The timer bookkeeping has no effect on this state. -/
def runQueueCycle (now pm : Nat) (st : SchedState) : SchedState :=
  let q0 := cleanWindows now pm st.quota
  match st.queue with
  | [] => { st with quota := q0 }
  | next :: rest =>
    let q1 := cleanWindows now pm q0
    if canStartNowChecks now q1 next.model next.reservationTokens then
      { quota := cleanWindows now pm
          (startRequestRecord now pm q1 next.model next.reservationTokens),
        queue := rest,
        startedLog := st.startedLog ++ [(next.id, now)] }
    else { st with quota := q1 }

/-- Externally triggered scheduler events: a `generate` submission or one
queue-processing cycle, each carrying its wall-clock time. -/
inductive SchedEvent
  | submit (p : Pending) (t : Nat)
  | cycle (t : Nat)
deriving DecidableEq, Repr

/-- One scheduler step. -/
def schedStep (pm : Nat) (st : SchedState) : SchedEvent → SchedState
  | .submit p t => submit t pm st p
  | .cycle t => runQueueCycle t pm st

/-- Run a sequence of scheduler events. -/
def schedRun (pm : Nat) (st : SchedState) (evs : List SchedEvent) : SchedState :=
  evs.foldl (schedStep pm) st

/-- Ids currently queued, in queue order. -/
def queueIds (st : SchedState) : List Nat := st.queue.map (fun p => p.id)

/-- Ids started so far, in start order. -/
def startedIds (st : SchedState) : List Nat := st.startedLog.map (fun e => e.1)

/-- Ids of the submit events of an event list, in submission order. -/
def submitIds : List SchedEvent → List Nat
  | [] => []
  | .submit p _ :: rest => p.id :: submitIds rest
  | .cycle _ :: rest => submitIds rest

/-! ### afterResponse (impl lines 1205-1222) -/

/-- The usage-related fields of `SpectreAiResponse.meta`. -/
structure ResponseMeta where
  promptTokens : Option Int := none
  candidatesTokens : Option Int := none
  totalTokens : Option Int := none
  usedReservation : Option Int := none
deriving DecidableEq, Repr

/-- Model of `afterResponse` (impl lines 1205-1222): reads
`actual = res.meta?.promptTokens || 0`; only when `actual > 0` does it
append the adjustment entry and set `meta.usedReservation`; it always ends
with `pushQuotaUpdate` (one `cleanWindows`). -/
def afterResponse (now pm : Nat) (s : QuotaState) (model : ModelKey)
    (reservationTokens : Int) (meta : Option ResponseMeta) :
    QuotaState × Option ResponseMeta :=
  let actual := (meta.bind (fun m => m.promptTokens)).getD 0
  if 0 < actual then
    let s1 := adjustReservation now pm s model actual reservationTokens
    let meta1 := meta.map (fun m => { m with usedReservation := some reservationTokens })
    (cleanWindows now pm s1, meta1)
  else
    (cleanWindows now pm s, meta)

/-! ### Backend token estimator `estimateTokens` (impl lines 1593-1633) -/

/-- After optional whitespace, is the next character `(` or an opening brace?
Models the `\s*[\(\{]` suffix of the code-detection regex. -/
def afterWsParen : List Char → Bool
  | [] => false
  | c :: rest =>
    if c == '(' || c == '\x7b' then true
    else if c.isWhitespace then afterWsParen rest else false

/-- The keyword alternatives of the code-detection regex
`(?:function|class|const|let|var|return|if|for|while)` (impl line 1603). -/
def jsCodeKeywords : List String :=
  ["function", "class", "const", "let", "var", "return", "if", "for", "while"]

/-- Does `/(?:function|class|const|let|var|return|if|for|while)\s*[\(\{]/`
match anywhere?  (No word boundaries in the source pattern.) -/
def hasCodeKeywordParen (cs : List Char) : Bool :=
  anyPos (fun suf =>
    jsCodeKeywords.any (fun kw =>
      charsStartWith kw.toList suf && afterWsParen (suf.drop kw.toList.length))) cs

/-- Model of `/^\s*[\{\[]/.test(s)`: the first non-whitespace character is an opening
brace or bracket. -/
def startsWithBraceOrBracket (cs : List Char) : Bool :=
  match cs.dropWhile (fun c => c.isWhitespace) with
  | [] => false
  | c :: _ => c == '\x7b' || c == '['

/-- Number of maximal non-whitespace runs of a character list. -/
def nonWsRunsAux : List Char → Bool → Nat
  | [], _ => 0
  | c :: rest, inRun =>
    if c.isWhitespace then nonWsRunsAux rest false
    else (if inRun then 0 else 1) + nonWsRunsAux rest true

/-- Number of maximal non-whitespace runs. -/
def nonWsRuns (cs : List Char) : Nat := nonWsRunsAux cs false

/-- Model of `s.split(/\s+/).length` in JS: the non-whitespace segments, plus an empty
leading segment when the string starts with whitespace and an empty trailing
segment when it ends with whitespace; `"".split` yields `[""]`. -/
def jsSplitWsCount (cs : List Char) : Nat :=
  match cs with
  | [] => 1
  | c :: _ =>
    nonWsRuns cs + (if c.isWhitespace then 1 else 0) +
      (if (cs.getLast?.getD 'x').isWhitespace then 1 else 0)

/-- Model of `estimateTokens` (impl lines 1593-1633).  `Math.ceil(len / 3.5)` etc. are
modelled by exact rational ceilings: `ceil(len/3) = (len+2)/3`,
`ceil(2*len/7) = (2*len+6)/7`, `ceil(13*w/10) = (13*w+9)/10`,
`ceil(2*len/9) = (2*len+8)/9` in truncated natural division. -/
def estimateTokens (text : String) : Nat :=
  let clean := jsTrim text
  if clean.length = 0 then 4
  else
    let len := clean.length
    let cs := clean.toList
    let hasCodeBlock := strContains clean "```"
    let hasCode := hasCodeBlock || hasCodeKeywordParen cs
    let hasJson :=
      startsWithBraceOrBracket cs ||
        (strContains clean "\":" && strContains clean "\x7b")
    let baseTokens :=
      if hasJson then (len + 2) / 3
      else if hasCode then (2 * len + 6) / 7
      else
        let words := jsSplitWsCount cs
        max ((13 * words + 9) / 10) ((2 * len + 8) / 9)
    max 4 (baseTokens + 5)

/-! ### Frontend token counter `TokenCounter` (src/unnamed/part_003) -/

/-- Content type hint of `TokenCounter.estimate`. -/
inductive ContentType
  | code
  | json
  | natural
  | mixed
deriving DecidableEq, Repr

/-- Model of `\w` of JS regexes: `[A-Za-z0-9_]`. -/
def isWordChar (c : Char) : Bool :=
  ('a' ≤ c && c ≤ 'z') || ('A' ≤ c && c ≤ 'Z') || ('0' ≤ c && c ≤ '9') || c == '_'

/-- Does the word-boundary keyword pattern `\bkw\b` match at this position?
`prev` is the character immediately before the position (none at start). -/
def wordMatchAt (kw : List Char) (prev : Option Char) (suf : List Char) : Bool :=
  charsStartWith kw suf &&
    (match prev with | none => true | some c => !isWordChar c) &&
    !(isWordChar ((suf.drop kw.length).getD 0 ' '))

/-- Count the positions at which one of the `\b`-delimited keyword
alternatives matches (equals the global match count of the regex, since
boundary-delimited matches cannot overlap). -/
def countWordMatches (kws : List (List Char)) : Option Char → List Char → Nat
  | _, [] => 0
  | prev, c :: rest =>
    (if kws.any (fun kw => wordMatchAt kw prev (c :: rest)) then 1 else 0) +
      countWordMatches kws (some c) rest

/-- Count the positions at which the position predicate matches (global match
count for patterns whose matches cannot overlap). -/
def countPosMatches (p : List Char → Bool) : List Char → Nat
  | [] => 0
  | c :: rest => (if p (c :: rest) then 1 else 0) + countPosMatches p rest

/-- After optional whitespace, is the next character `<` or `"`?
Models the `\s*[<"]` suffix of the `#include` pattern. -/
def afterWsAngleOrQuote : List Char → Bool
  | [] => false
  | c :: rest =>
    if c == '<' || c == '"' then true
    else if c.isWhitespace then afterWsAngleOrQuote rest else false

/-- Model of `detectContentType` (part_003 lines 70-104).  The floating-point ratio
comparisons `x / len > 0.05` and `score > len * 0.02` are modelled by the
exact rational comparisons `20 * x > len` and `50 * score > len`. -/
def detectContentType (text : String) : ContentType :=
  let sample := text.toList.take 1000
  let jsonStart := startsWithBraceOrBracket sample
  let jsonEnd :=
    match (sample.reverse.dropWhile (fun c => c.isWhitespace)) with
    | [] => false
    | c :: _ => c == ']' || c == '\x7d'
  let jsonChars :=
    (sample.filter (fun c =>
      c == '\x7b' || c == '\x7d' || c == '[' || c == ']' || c == ':' || c == ',')).length
  if jsonStart && jsonEnd && sample.length < 20 * jsonChars then ContentType.json
  else
    let typeKws := ["void", "int", "float", "char", "bool", "byte", "String"].map
      (fun s => s.toList)
    let arduinoKws := ["setup", "loop", "pinMode", "digitalWrite", "analogRead"].map
      (fun s => s.toList)
    let includeCount := countPosMatches
      (fun suf => charsStartWith "#include".toList suf &&
        afterWsAngleOrQuote (suf.drop 8)) sample
    let punctCount :=
      (sample.filter (fun c =>
        c == '(' || c == ')' || c == '\x7b' || c == '\x7d' || c == ';')).length
    let codeScore := countWordMatches typeKws none sample +
      countWordMatches arduinoKws none sample + includeCount + punctCount
    if sample.length < 50 * codeScore then ContentType.code
    else
      let sentenceEndings := countPosMatches
        (fun suf =>
          match suf with
          | a :: b :: _ => (a == '.' || a == '!' || a == '?') && b.isWhitespace
          | _ => false) sample
      let words := jsSplitWsCount sample
      if 10 < words && words < 20 * sentenceEndings then ContentType.natural
      else ContentType.mixed

/-- Model of `TokenCounter.estimate` (part_003 lines 31-65).  Note the early return:
empty text yields 0.  `ceil(words * 1.3) = (13*words+9)/10` and
`ceil(len/3.5) = (2*len+6)/7` model the JS `Math.ceil` calls. -/
def TokenCounter.estimate (text : String) (contentType : Option ContentType) : Nat :=
  if text.length = 0 then 0
  else
    let length := text.length
    let ct := contentType.getD (detectContentType text)
    match ct with
    | ContentType.json => (length + 2) / 3
    | ContentType.code => (2 * length + 6) / 7
    | ContentType.natural => (13 * jsSplitWsCount text.toList + 9) / 10
    | ContentType.mixed => (length + 3) / 4

/-- Model of `TokenCounter.fastEstimate` (part_003 lines 171-173). -/
def TokenCounter.fastEstimate (text : String) : Nat :=
  max 1 ((text.length + 3) / 4)

/-! ### Conversation memory manager (memory-manager.ts) -/

/-- Message role. -/
inductive Role
  | user
  | assistant
deriving DecidableEq, Repr

/-- Model of `RawMessage` (memory-types): a verbatim buffered message with its cached
token estimate. -/
structure RawMessage where
  id : String
  role : Role
  text : String
  timestamp : Nat
  estimatedTokens : Option Nat := none
deriving DecidableEq, Repr

/-- Model of `SummaryEntry.category` values (memory-manager.ts `categorizeSummary`). -/
inductive Category
  | code_change
  | configuration
  | debugging
  | learning
  | general
deriving DecidableEq, Repr

/-- Model of `SummaryEntry` (memory-types). -/
structure SummaryEntry where
  id : String
  summary : String
  originalMessageIds : List String
  createdAt : Nat
  category : Category
  estimatedTokens : Option Nat := none
deriving DecidableEq, Repr

/-- Model of `memoryBank` component of `ConversationMemory`. -/
structure MemoryBank where
  summaries : List SummaryEntry
  totalTokens : Nat
  version : Nat
  lastCompressedAt : Option Nat := none
deriving DecidableEq, Repr

/-- Model of `summarizationTrigger` component of `MemoryConfig`. -/
structure SummarizationTrigger where
  minMessages : Nat
  maxTokens : Nat
deriving DecidableEq, Repr

/-- Model of `MemoryConfig` (the fields read by the summarization trigger). -/
structure MemoryConfig where
  maxRecentMessages : Nat
  memoryBankTokenCap : Nat
  summarizationTrigger : SummarizationTrigger
deriving DecidableEq, Repr

/-- Model of `DEFAULT_MEMORY_CONFIG` as documented in the repository documentation
(src/unnamed/part_000 lines 136-140). -/
def DEFAULT_MEMORY_CONFIG : MemoryConfig :=
  { maxRecentMessages := 40, memoryBankTokenCap := 100000,
    summarizationTrigger := { minMessages := 30, maxTokens := 25000 } }

/-- Model of `withTokenCount` (part_003 lines 199-207) specialised to `RawMessage`:
fills in `estimatedTokens` when it is undefined. -/
def withTokenCountMsg (m : RawMessage) (ct : Option ContentType) : RawMessage :=
  match m.estimatedTokens with
  | none => { m with estimatedTokens := some (TokenCounter.estimate m.text ct) }
  | some _ => m

/-- Model of `withTokenCount` specialised to `SummaryEntry`. -/
def withTokenCountSummary (e : SummaryEntry) (ct : Option ContentType) : SummaryEntry :=
  match e.estimatedTokens with
  | none => { e with estimatedTokens := some (TokenCounter.estimate e.summary ct) }
  | some _ => e

/-- Token sum of the recent-message buffer
(memory-manager.ts lines 96-99: `msg.estimatedTokens || 0`). -/
def recentTokensOf (msgs : List RawMessage) : Nat :=
  msgs.foldl (fun sum m => sum + m.estimatedTokens.getD 0) 0

/-- The decision of `checkAndSummarize` (memory-manager.ts lines 86-109):
returns whether `summarizeOldMessages` is invoked.  Note the early return
when fewer than `summarizationTrigger.minMessages` messages are buffered. -/
def checkAndSummarizeTriggered (config : MemoryConfig)
    (recentMessages : List RawMessage) : Bool :=
  if recentMessages.length < config.summarizationTrigger.minMessages then false
  else
    let recentTokens := recentTokensOf recentMessages
    decide (config.maxRecentMessages < recentMessages.length) ||
      decide (config.summarizationTrigger.maxTokens < recentTokens)

/-- Model of `addMessage` (memory-manager.ts lines 61-81): wraps the text in a
`RawMessage` with a cached token estimate (content type `mixed` for user
messages, `natural` for assistant messages), appends it to the buffer, and
runs the summarization check.  Returns the new buffer and whether
summarization was triggered. -/
def addMessage (config : MemoryConfig) (recentMessages : List RawMessage)
    (msgId : String) (role : Role) (text : String) (now : Nat) :
    List RawMessage × Bool :=
  let message := withTokenCountMsg
    { id := msgId, role := role, text := text, timestamp := now, estimatedTokens := none }
    (some (if role = Role.user then ContentType.mixed else ContentType.natural))
  let msgs := recentMessages ++ [message]
  (msgs, checkAndSummarizeTriggered config msgs)

/-- A placeholder summary entry used only as the `getD` default below (the
source indexes `summaries[summaries.length - 1]`, which is defined because
compression requires at least 3 summaries). -/
def dummySummary : SummaryEntry :=
  { id := "", summary := "", originalMessageIds := [], createdAt := 0,
    category := Category.general, estimatedTokens := none }

/-- Model of `compressMemoryBank` (memory-manager.ts lines 308-414).  The auxiliary
model call is modelled by its outcome: `none` when the call failed (the
exception is swallowed and the bank is left unchanged), `some text` when it
returned `text`.  An empty trimmed text also leaves the bank unchanged.  On
success the bank is replaced by exactly `[compressedSummary, recentSummary]`
where the meta-summary merges all summaries but the newest. -/
def compressMemoryBank (bank : MemoryBank) (now : Nat)
    (responseText : Option String) : MemoryBank :=
  if bank.summaries.length < 3 then bank
  else
    match responseText with
    | none => bank
    | some text =>
      if jsTrim text ≠ "" then
        let recentSummary := bank.summaries.getLast?.getD dummySummary
        let oldSummaries := bank.summaries.dropLast
        let compressedSummary := withTokenCountSummary
          { id := "compressed-" ++ toString now,
            summary := jsTrim text,
            originalMessageIds := (oldSummaries.map (fun s => s.originalMessageIds)).flatten,
            createdAt := now,
            category := Category.general,
            estimatedTokens := none }
          (some ContentType.natural)
        { bank with
            summaries := [compressedSummary, recentSummary],
            totalTokens := compressedSummary.estimatedTokens.getD 0 +
              recentSummary.estimatedTokens.getD 0,
            lastCompressedAt := some now }
      else bank

/-! ### Error classification (impl lines 1675-1721) and retry pacing -/

/-- The error value inspected by `classifyError`: its message and the first
of `err.status` / `err.code` / `err.statusCode` when that is a number. -/
structure ErrorInput where
  message : String
  status : Option Int := none
deriving DecidableEq, Repr

/-- The category component of `classifyError`'s result. -/
inductive ErrorCategory
  | auth
  | rate
  | quota
  | canceled
  | other
deriving DecidableEq, Repr

/-- The result of `classifyError`. -/
structure ClassifiedError where
  retryable : Bool
  category : ErrorCategory
  message : String
deriving DecidableEq, Repr

/-- Model of `/Failed to parse stream|parse.*stream/i.test(m)`: either the literal
phrase, or "parse" followed (anywhere later) by "stream". -/
def matchesParseStream (m : String) : Bool :=
  strContainsCI m "Failed to parse stream" ||
    anyPos (fun suf =>
      charsStartWith "parse".toList suf && charsContain "stream".toList (suf.drop 5))
      (charsToLower m.toList)

/-- Model of `classifyError` (impl lines 1675-1721). -/
def classifyError (err : ErrorInput) : ClassifiedError :=
  let message := err.message
  let status := err.status
  if strContainsCI message "abort" then
    { retryable := false, category := ErrorCategory.canceled, message := message }
  else if status = some 401 ||
      containsAnyCI message ["UNAUTHENTICATED", "permission", "unauthorized", "API key"] then
    { retryable := false, category := ErrorCategory.auth, message := message }
  else if strContainsCI message "quota" &&
      (strContainsCI message "exceed" || strContainsCI message "exhaust") then
    { retryable := false, category := ErrorCategory.quota, message := message }
  else if status = some 429 || containsAnyCI message ["rate", "RESOURCE_EXHAUSTED"] then
    { retryable := true, category := ErrorCategory.rate, message := message }
  else if containsAnyCI message ["overloaded", "503", "Service Unavailable"] then
    { retryable := true, category := ErrorCategory.other,
      message := "Gemini API overloaded - retrying..." }
  else if matchesParseStream message then
    { retryable := true, category := ErrorCategory.other,
      message := "Network stream error - retrying..." }
  else if strContainsCI message "Error fetching" then
    { retryable := true, category := ErrorCategory.other,
      message := "Network connection error - retrying..." }
  else
    match status with
    | some n =>
      if 500 ≤ n ∧ n < 600 then
        { retryable := true, category := ErrorCategory.other, message := message }
      else
        { retryable := false, category := ErrorCategory.other, message := message }
    | none => { retryable := false, category := ErrorCategory.other, message := message }

/-- The service-overload test of the retry backoff
(impl lines 1168-1171): `/overloaded|503|Failed to parse stream|Error fetching/i`. -/
def isServiceIssue (message : String) : Bool :=
  containsAnyCI message ["overloaded", "503", "Failed to parse stream", "Error fetching"]

/-- The exponential retry backoff (impl lines 1172-1175):
`baseDelay * 2^attempt` with the longer base for service-overload errors. -/
def retryBackoffMs (message : String) (attempt : Nat) : Nat :=
  (if isServiceIssue message then SERVICE_OVERLOAD_BASE_DELAY
   else NETWORK_RETRY_BASE_DELAY) * 2 ^ attempt

/-! ### Executor streaming events (impl lines 1038-1190, 1318-1524) -/

/-- One event pushed to the frontend observer via `client.onStream`. -/
inductive StreamEvent
  | delta (key : String) (text : String)
  | done (key : String)
  | error (key : String) (message : String)
deriving DecidableEq, Repr

/-- Outcome of one upstream streaming attempt, as observed by
`streamingCallImpl`: the chunk texts delivered before the stream either
completed, threw, or was aborted (cancellation / timeout). -/
inductive UpstreamOutcome
  | chunksThenComplete (chunks : List String)
  | chunksThenThrow (chunks : List String) (err : ErrorInput)
  | abortedDuring (chunks : List String)
deriving DecidableEq, Repr

/-- The delta events emitted by the chunk loop of `streamingCallImpl`
(impl lines 1433-1464, non-agent mode): one delta per non-empty chunk text. -/
def chunkDeltas (key : String) (chunks : List String) : List StreamEvent :=
  (chunks.filter (fun c => c ≠ "")).map (fun c => StreamEvent.delta key c)

mutual

/-- The retry loop of `executeStandardGeneration` (impl lines 1102-1189)
driven by a script of per-attempt outcomes, each tagged with whether the
pacing delay was non-zero (pacing emits a progress delta, impl line 1542).
Returns the stream events delivered to the observer under the request's key
and whether the request resolved (`true`) or its promise rejected (`false`).

Faithful behaviors: a completed stream with empty accumulated text throws
"Gemini API returned no content." before the `done` event (impl line 1470);
an aborted attempt rethrows "Generation canceled." with no further events
(impl line 1132); the two one-shot compatibility fallbacks
(`thinkingConfig`, Google Search) retry without classification
(impl lines 1143-1160); `auth` and `quota` classifications throw
(impl lines 1163-1165); retryable errors below the attempt cap emit a
retry-notice delta and continue (impl lines 1166-1186); anything else
throws.  No terminal stream event is ever emitted on the failure paths. -/
def executeStandardGenerationEvents (key : String) :
    List (Bool × UpstreamOutcome) → Nat → Bool → Bool → List StreamEvent × Bool
  | [], _, _, _ => ([], false)
  | (needPace, outcome) :: rest, attempt, triedNoThinking, triedNoSearch =>
    let paceEvs : List StreamEvent :=
      if needPace then [StreamEvent.delta key "Pacing..."] else []
    match outcome with
    | UpstreamOutcome.abortedDuring chunks =>
      (paceEvs ++ chunkDeltas key chunks, false)
    | UpstreamOutcome.chunksThenComplete chunks =>
      if String.join chunks = "" then
        execFailure key rest attempt triedNoThinking triedNoSearch
          (paceEvs ++ chunkDeltas key chunks)
          { message := "Gemini API returned no content.", status := none }
      else
        (paceEvs ++ chunkDeltas key chunks ++ [StreamEvent.done key], true)
    | UpstreamOutcome.chunksThenThrow chunks err =>
      execFailure key rest attempt triedNoThinking triedNoSearch
        (paceEvs ++ chunkDeltas key chunks) err
termination_by script => (script.length, 1)

/-- The catch block of the retry loop (impl lines 1131-1187); `evs` are the
events already emitted by the failed attempt. -/
def execFailure (key : String) (rest : List (Bool × UpstreamOutcome))
    (attempt : Nat) (triedNoThinking triedNoSearch : Bool)
    (evs : List StreamEvent) (err : ErrorInput) : List StreamEvent × Bool :=
  if !triedNoThinking && strContainsCI err.message "Unknown name \"thinkingConfig\"" then
    let r := executeStandardGenerationEvents key rest attempt true triedNoSearch
    (evs ++ r.1, r.2)
  else if !triedNoSearch &&
      containsAnyCI err.message ["Unknown", "google_search", "googleSearch", "tool"] then
    let r := executeStandardGenerationEvents key rest attempt triedNoThinking true
    (evs ++ r.1, r.2)
  else
    let c := classifyError err
    if c.category = ErrorCategory.auth then (evs, false)
    else if c.category = ErrorCategory.quota then (evs, false)
    else if c.retryable && attempt < 4 then
      let retryNote := StreamEvent.delta key
        ((if isServiceIssue c.message then "Service overloaded" else "Network error") ++
          " - retrying...")
      let r := executeStandardGenerationEvents key rest (attempt + 1)
        triedNoThinking triedNoSearch
      (evs ++ [retryNote] ++ r.1, r.2)
    else (evs, false)
termination_by (rest.length + 1, 0)

end

/-- The `cancel` path for a running request (impl lines 525-531): aborting an
in-flight request emits exactly one `error: 'Canceled'` event. -/
def cancelRunningEvents (key : String) : List StreamEvent :=
  [StreamEvent.error key "Canceled"]

/-- Is the event a terminal event (`done: true` or `error`)? -/
def isTerminal : StreamEvent → Bool
  | StreamEvent.delta _ _ => false
  | StreamEvent.done _ => true
  | StreamEvent.error _ _ => true

/-- The spec's outbound-event contract: zero or more delta events followed by
exactly one terminal event, with nothing after the terminal one. -/
def deltasThenOneTerminal (evs : List StreamEvent) : Prop :=
  ∃ ds t, evs = ds ++ [t] ∧ (∀ e ∈ ds, isTerminal e = false) ∧ isTerminal t = true

set_option maxRecDepth 100000

/-! ## Helper lemmas -/

theorem getA_setA_self (k : ModelKey) (v : α) (m : List (ModelKey × α)) (d : α) :
    getA (setA k v m) k d = v := by
  induction m with
  | nil => simp [getA, setA, lookupA]
  | cons kv rest ih =>
    obtain ⟨k', v'⟩ := kv
    by_cases hk : k' = k
    · simp [getA, setA, lookupA, hk]
    · simpa [getA, setA, lookupA, hk] using ih

theorem mem_setA {kv : ModelKey × α} {k : ModelKey} {v : α}
    {m : List (ModelKey × α)} : kv ∈ setA k v m → kv = (k, v) ∨ kv ∈ m := by
  induction m with
  | nil => intro h; simpa [setA] using h
  | cons kv' rest ih =>
    intro h
    obtain ⟨k', v'⟩ := kv'
    by_cases hk : k' = k
    · rw [setA, if_pos hk] at h
      rcases List.mem_cons.mp h with h | h
      · exact Or.inl h
      · exact Or.inr (List.mem_cons_of_mem _ h)
    · rw [setA, if_neg hk] at h
      rcases List.mem_cons.mp h with h | h
      · exact Or.inr (List.mem_cons.mpr (Or.inl h))
      · rcases ih h with h' | h'
        · exact Or.inl h'
        · exact Or.inr (List.mem_cons_of_mem _ h')

/-- When every token-window entry is at or after the cutoff, the amortized
cleanup pass leaves the windows untouched and reports no pruning. -/
theorem cleanTokenLists_of_fresh (cutoff : Nat)
    (tw : List (ModelKey × List TokenUsage))
    (h : ∀ kv ∈ tw, ∀ e ∈ kv.2, cutoff ≤ e.time) :
    cleanTokenLists cutoff tw = (tw, false) := by
  induction tw with
  | nil => rfl
  | cons kv rest ih =>
    obtain ⟨k, w⟩ := kv
    have hrest : cleanTokenLists cutoff rest = (rest, false) :=
      ih (fun kv hkv => h kv (List.mem_cons_of_mem _ hkv))
    have hw : ∀ e ∈ w, cutoff ≤ e.time := h (k, w) (List.mem_cons_self _ _)
    have hfilter : w.filter (fun e => e.time < cutoff) = [] := by
      apply List.filter_eq_nil_iff.mpr
      intro e he
      simpa using Nat.not_lt.mpr (hw e he)
    by_cases hlen : w.length = 0
    · simp [cleanTokenLists, hrest, hlen]
    · simp [cleanTokenLists, hrest, hlen, hfilter]

/-- Model of `cleanWindows` does not change the token windows when all their entries
are inside the rolling window. -/
theorem cleanWindows_tokenWindows_of_fresh (now pm : Nat) (s : QuotaState)
    (h : ∀ kv ∈ s.tokenWindows, ∀ e ∈ kv.2, now - ROLLING_WINDOW_MS ≤ e.time) :
    (cleanWindows now pm s).tokenWindows = s.tokenWindows := by
  simp [cleanWindows, cleanTokenLists_of_fresh _ _ h]

/-- If the TPM headroom condition fails, `canStartNowChecks` refuses. -/
theorem canStartNowChecks_false_of_tpm {now : Nat} {s : QuotaState}
    {model : ModelKey} {r : Int}
    (h : tpmHeadroomOk s.tokenWindows r = false) :
    canStartNowChecks now s model r = false := by
  simp [canStartNowChecks, h]

/-! ## C1: is the 250k token ceiling evaluated per ModelKey? -/

/-- A ledger state in which the flash window holds the full 250,000 tokens
(inside the rolling window) and the flash-lite window is empty. -/
def c1State : QuotaState :=
  { tokenWindows := [("gemini-2.5-flash", [⟨95000, 250000, true⟩]),
                     ("gemini-2.5-flash-lite", [])] }

/-- C1 counterexample: the claim asserts that with one model's window at the
full 250,000-token ceiling and the other model's window empty, a request for
the empty model still passes the token-ceiling condition.  In `c1State` the
flash window holds 250,000 fresh tokens, the flash-lite window is empty, and
yet a flash-lite request for 100 tokens fails the TPM headroom condition of
`canStartNow` (and the admission check as a whole), because
`currentUsedTokens` sums the token windows of ALL model keys. -/
theorem C1_counterexample :
    tpmHeadroomOk c1State.tokenWindows 100 = false ∧
    canStartNow 100000 50000 c1State "gemini-2.5-flash-lite" 100 = false := by
  decide

/-- C1 amended: the token ceiling is tracked globally, not per ModelKey.  In
every state whose flash window sums to the full 250,000 tokens (all entries
inside the rolling window) and whose flash-lite window is empty, any
flash-lite request with a positive token reservation fails the token-ceiling
condition, hence is not admitted. -/
theorem C1_global_token_ceiling (now pm : Nat) (s : QuotaState)
    (w : List TokenUsage) (r : Int)
    (hshape : s.tokenWindows = [("gemini-2.5-flash", w), ("gemini-2.5-flash-lite", [])])
    (hfresh : ∀ e ∈ w, now - ROLLING_WINDOW_MS ≤ e.time)
    (hsum : windowSum w = 250000) (hr : 1 ≤ r) :
    tpmHeadroomOk s.tokenWindows r = false ∧
    canStartNow now pm s "gemini-2.5-flash-lite" r = false := by
  have hused : currentUsedTokens s.tokenWindows = 250000 := by
    simp [hshape, currentUsedTokens, hsum, show windowSum [] = (0 : Int) from rfl]
  have htpm : tpmHeadroomOk s.tokenWindows r = false := by
    simp only [tpmHeadroomOk, hused, Bool.not_eq_false', decide_eq_true_eq]
    show TOKEN_CAPACITY_PER_MINUTE < 250000 + r
    have : (250000 : Int) < 250000 + r := by omega
    simpa [TOKEN_CAPACITY_PER_MINUTE] using this
  refine ⟨htpm, ?_⟩
  have hfresh' : ∀ kv ∈ s.tokenWindows, ∀ e ∈ kv.2, now - ROLLING_WINDOW_MS ≤ e.time := by
    intro kv hkv e he
    rw [hshape] at hkv
    rcases List.mem_cons.mp hkv with h | h
    · subst h; exact hfresh e he
    · rcases List.mem_cons.mp h with h | h
      · subst h; simp at he
      · simp at h
  have hclean : (cleanWindows now pm s).tokenWindows = s.tokenWindows :=
    cleanWindows_tokenWindows_of_fresh now pm s hfresh'
  unfold canStartNow
  exact canStartNowChecks_false_of_tpm (by rw [hclean]; exact htpm)

/-- Witness for `C1_global_token_ceiling` at a concrete state. -/
theorem C1_global_token_ceiling_witness :
    ((c1State.tokenWindows =
        [("gemini-2.5-flash", [⟨95000, 250000, true⟩]), ("gemini-2.5-flash-lite", [])]) ∧
     (∀ e ∈ [(⟨95000, 250000, true⟩ : TokenUsage)], 100000 - ROLLING_WINDOW_MS ≤ e.time) ∧
     windowSum [(⟨95000, 250000, true⟩ : TokenUsage)] = 250000 ∧ (1 : Int) ≤ 100) ∧
    (tpmHeadroomOk c1State.tokenWindows 100 = false ∧
     canStartNow 100000 50000 c1State "gemini-2.5-flash-lite" 100 = false) :=
  ⟨⟨by decide, by decide, by decide, by decide⟩,
    C1_global_token_ceiling 100000 50000 c1State _ 100 rfl (by decide) (by decide) (by decide)⟩

/-! ## C3: RPM exhaustion scenario for flash-lite -/

/-- A flash-lite request with a 1000-token reservation. -/
def liteReq (i : Nat) (t : Nat) : Pending :=
  { id := i, model := "gemini-2.5-flash-lite", reservationTokens := 1000, enqueuedAt := t }

/-- 15 flash-lite submissions at the minimum 4-second spacing starting at
t = 100000 (the earliest cadence the spacing check admits), each followed by
the queue-processing cycle that `scheduleQueueProcessing` fires 25ms later. -/
def c3Events : List SchedEvent :=
  (List.range 15).flatMap (fun k =>
    [SchedEvent.submit (liteReq k (100000 + 4000 * k)) (100000 + 4000 * k),
     SchedEvent.cycle (100000 + 4000 * k + 25)])

/-- The scheduler state after the 15 admissions. -/
def c3State : SchedState := schedRun 50000 {} c3Events

/-- The ledger state `canStartNow` actually consults for the 16th submission
at t = 160000 (i.e. after its internal `cleanWindows`). -/
def c3Cleaned : QuotaState := cleanWindows 160000 50000 c3State.quota

/-- C3 evaluation at the failing input.  After 15 flash-lite admissions at
t = 100000, 104000, ..., 156000 (minimum spacing, all inside one 60-second
window), a 16th submission at t = 160000 - when the oldest timestamp is
exactly 60s old, i.e. still within the cutoff `t >= now - 60000` that
`cleanWindows` itself uses - must be queued according to the claim.  The
code instead ADMITS it: `canStartNow` reads `cachedRpmLists`, which still
holds only the first call's timestamp because `recordRpm` never updates the
cache and `cleanWindows` rebuilds it only once more than 30% of the entries
of some list have expired.  A freshly rebuilt cache would refuse the
request; the stale one admits it and the queue stays empty. -/
theorem C3_stale_rpm_cache_admits_16th :
    (startedIds c3State = List.range 15 ∧ c3State.queue = []) ∧
    ((getA c3State.quota.recentCalls "gemini-2.5-flash-lite" []).filter
        (fun t => 160000 - ROLLING_WINDOW_MS ≤ t)).length = 15 ∧
    (getA c3State.quota.cachedRpmLists "gemini-2.5-flash-lite" []).length = 1 ∧
    canStartNowChecks 160000
      { c3Cleaned with
          cachedRpmLists := rebuildCache (160000 - ROLLING_WINDOW_MS) c3Cleaned.recentCalls }
      "gemini-2.5-flash-lite" 1000 = false ∧
    canStartNow 160000 50000 c3State.quota "gemini-2.5-flash-lite" 1000 = true ∧
    startedIds (schedRun 50000 {}
        (c3Events ++ [SchedEvent.submit (liteReq 15 160000) 160000])) = List.range 16 ∧
    (schedRun 50000 {} (c3Events ++ [SchedEvent.submit (liteReq 15 160000) 160000])).queue
      = [] := by
  decide

/-! ## C4: reservation followed by adjustment -/

theorem lookupA_mem {k : ModelKey} {m : List (ModelKey × α)} {v : α}
    (h : lookupA k m = some v) : (k, v) ∈ m := by
  induction m with
  | nil => simp [lookupA] at h
  | cons kv rest ih =>
    obtain ⟨k', v'⟩ := kv
    by_cases hk : k' = k
    · rw [lookupA, if_pos hk] at h
      subst hk
      exact List.mem_cons.mpr (Or.inl (by simpa using h.symm))
    · rw [lookupA, if_neg hk] at h
      exact List.mem_cons_of_mem _ (ih h)

theorem windowSum_go (i : Int) (w : List TokenUsage) :
    w.foldl (fun acc e => acc + e.tokens) i = i + windowSum w := by
  induction w generalizing i with
  | nil => simp [windowSum]
  | cons e w ih =>
    simp only [List.foldl_cons, windowSum] at *
    rw [ih (i + e.tokens), ih (0 + e.tokens)]
    ring

theorem windowSum_append (xs ys : List TokenUsage) :
    windowSum (xs ++ ys) = windowSum xs + windowSum ys := by
  unfold windowSum
  rw [List.foldl_append, windowSum_go]
  rfl

/-- C4: for every prior ledger state whose window entries are inside the
rolling window, reserving `r` tokens at `t₁` and then adjusting with
`(actual = a, reserved = r)` at `t₂` (with `t₁` still inside the window at
`t₂`) leaves the original reservation entry in place, appends exactly one
signed delta entry `a - r` when `a ≠ r` (and nothing when `a = r`), and
makes the request's net token-window contribution equal `a` - for `a > r`
and `a < r` alike. -/
theorem C4_reservation_reconciliation (pm t₁ t₂ : Nat) (s : QuotaState)
    (model : ModelKey) (r a : Int)
    (h12 : t₁ ≤ t₂)
    (hfresh : ∀ kv ∈ s.tokenWindows, ∀ e ∈ kv.2, t₂ - ROLLING_WINDOW_MS ≤ e.time)
    (hwin : t₂ - ROLLING_WINDOW_MS ≤ t₁) :
    getA (adjustReservation t₂ pm (recordReservation t₁ pm s model r) model a r).tokenWindows
        model []
      = getA s.tokenWindows model [] ++ [(⟨t₁, r, true⟩ : TokenUsage)] ++
          (if a = r then [] else [(⟨t₂, a - r, false⟩ : TokenUsage)]) ∧
    windowSum (getA
        (adjustReservation t₂ pm (recordReservation t₁ pm s model r) model a r).tokenWindows
        model [])
      = windowSum (getA s.tokenWindows model []) + a := by
  set w0 := getA s.tokenWindows model [] with hw0
  have hw0fresh : ∀ e ∈ w0, t₂ - ROLLING_WINDOW_MS ≤ e.time := by
    intro e he
    rw [hw0] at he
    unfold getA at he
    cases hl : lookupA model s.tokenWindows with
    | none => rw [hl] at he; simp at he
    | some w => rw [hl] at he; exact hfresh (model, w) (lookupA_mem hl) e (by simpa using he)
  -- the reservation step
  have hcut1 : t₁ - ROLLING_WINDOW_MS ≤ t₂ - ROLLING_WINDOW_MS := by omega
  have hfresh1 : ∀ kv ∈ setA model (w0 ++ [(⟨t₁, r, true⟩ : TokenUsage)]) s.tokenWindows,
      ∀ e ∈ kv.2, t₁ - ROLLING_WINDOW_MS ≤ e.time := by
    intro kv hkv e he
    rcases mem_setA hkv with h | h
    · subst h
      rcases List.mem_append.mp he with h' | h'
      · exact le_trans hcut1 (hw0fresh e h')
      · simp only [List.mem_singleton] at h'
        subst h'
        exact Nat.sub_le t₁ ROLLING_WINDOW_MS
    · exact le_trans hcut1 (hfresh kv h e he)
  have hs1 : (recordReservation t₁ pm s model r).tokenWindows
      = setA model (w0 ++ [(⟨t₁, r, true⟩ : TokenUsage)]) s.tokenWindows := by
    unfold recordReservation
    rw [← hw0]
    exact cleanWindows_tokenWindows_of_fresh t₁ pm _ hfresh1
  have hget1 : getA (recordReservation t₁ pm s model r).tokenWindows model []
      = w0 ++ [(⟨t₁, r, true⟩ : TokenUsage)] := by
    rw [hs1, getA_setA_self]
  by_cases ha : a = r
  · -- delta = 0: the adjustment is a no-op
    have hdelta : a - r = 0 := by omega
    have : adjustReservation t₂ pm (recordReservation t₁ pm s model r) model a r
        = recordReservation t₁ pm s model r := by
      unfold adjustReservation
      simp [hdelta]
    rw [this, hget1, if_pos ha]
    refine ⟨by simp, ?_⟩
    rw [windowSum_append,
      show windowSum [(⟨t₁, r, true⟩ : TokenUsage)] = r from by simp [windowSum], ha]
  · -- delta ≠ 0: one signed delta entry is appended
    have hdelta : a - r ≠ 0 := by omega
    have hfresh2 : ∀ kv ∈ setA model
        (w0 ++ [(⟨t₁, r, true⟩ : TokenUsage)] ++ [(⟨t₂, a - r, false⟩ : TokenUsage)])
        (recordReservation t₁ pm s model r).tokenWindows,
        ∀ e ∈ kv.2, t₂ - ROLLING_WINDOW_MS ≤ e.time := by
      intro kv hkv e he
      rcases mem_setA hkv with h | h
      · subst h
        simp only [List.mem_append, List.mem_singleton] at he
        rcases he with (h' | h') | h'
        · exact hw0fresh e h'
        · subst h'; exact hwin
        · subst h'; exact Nat.sub_le _ _
      · rw [hs1] at h
        rcases mem_setA h with h' | h'
        · subst h'
          simp only [List.mem_append, List.mem_singleton] at he
          rcases he with h' | h'
          · exact hw0fresh e h'
          · subst h'; exact hwin
        · exact hfresh kv h' e he
    have hs2 : (adjustReservation t₂ pm (recordReservation t₁ pm s model r) model a r).tokenWindows
        = setA model
            (w0 ++ [(⟨t₁, r, true⟩ : TokenUsage)] ++ [(⟨t₂, a - r, false⟩ : TokenUsage)])
            (recordReservation t₁ pm s model r).tokenWindows := by
      unfold adjustReservation
      rw [if_pos hdelta, hget1]
      exact cleanWindows_tokenWindows_of_fresh t₂ pm _ hfresh2
    rw [hs2, getA_setA_self, if_neg ha]
    refine ⟨rfl, ?_⟩
    rw [windowSum_append, windowSum_append,
      show windowSum [(⟨t₁, r, true⟩ : TokenUsage)] = r from by simp [windowSum],
      show windowSum [(⟨t₂, a - r, false⟩ : TokenUsage)] = a - r from by simp [windowSum]]
    ring

/-- Witness for `C4_reservation_reconciliation`: reserve 500 tokens, then
adjust to an actual cost of 300 (`a < r`, negative delta entry). -/
theorem C4_reservation_reconciliation_witness :
    ((100000 : Nat) ≤ 101000 ∧
     (∀ kv ∈ ({} : QuotaState).tokenWindows, ∀ e ∈ kv.2,
        101000 - ROLLING_WINDOW_MS ≤ e.time) ∧
     101000 - ROLLING_WINDOW_MS ≤ 100000) ∧
    (getA (adjustReservation 101000 50000
          (recordReservation 100000 50000 {} "gemini-2.5-flash-lite" 500)
          "gemini-2.5-flash-lite" 300 500).tokenWindows "gemini-2.5-flash-lite" []
        = getA ({} : QuotaState).tokenWindows "gemini-2.5-flash-lite" [] ++
            [(⟨100000, 500, true⟩ : TokenUsage)] ++
            (if (300 : Int) = 500 then []
             else [(⟨101000, (300 : Int) - 500, false⟩ : TokenUsage)]) ∧
     windowSum (getA (adjustReservation 101000 50000
          (recordReservation 100000 50000 {} "gemini-2.5-flash-lite" 500)
          "gemini-2.5-flash-lite" 300 500).tokenWindows "gemini-2.5-flash-lite" [])
        = windowSum (getA ({} : QuotaState).tokenWindows "gemini-2.5-flash-lite" []) + 300) :=
  ⟨⟨by decide, by decide, by decide⟩,
    C4_reservation_reconciliation 50000 100000 101000 {} "gemini-2.5-flash-lite" 500 300
      (by decide) (by decide) (by decide)⟩

/-! ## C10: completed response without a positive promptTokens value -/

/-- C10: when the completed response's usage metadata carries no positive
`promptTokens` (absent meta, absent field, zero, or a non-positive value),
`afterResponse` appends no adjustment entry to the token windows (they are
unchanged - entries inside the rolling window are not even pruned) and does
not set `meta.usedReservation`; the original reservation hence remains the
request's net token-window charge. -/
theorem C10_reservation_stands_without_usage (now pm : Nat) (s : QuotaState)
    (model : ModelKey) (reservationTokens : Int) (meta : Option ResponseMeta)
    (hfresh : ∀ kv ∈ s.tokenWindows, ∀ e ∈ kv.2, now - ROLLING_WINDOW_MS ≤ e.time)
    (hactual : (meta.bind (fun m => m.promptTokens)).getD 0 ≤ 0) :
    (afterResponse now pm s model reservationTokens meta).1.tokenWindows = s.tokenWindows ∧
    (afterResponse now pm s model reservationTokens meta).2 = meta ∧
    windowSum (getA (afterResponse now pm s model reservationTokens meta).1.tokenWindows
        model [])
      = windowSum (getA s.tokenWindows model []) := by
  have hnot : ¬ (0 < (meta.bind (fun m => m.promptTokens)).getD 0) := by omega
  have h1 : afterResponse now pm s model reservationTokens meta
      = (cleanWindows now pm s, meta) := by
    unfold afterResponse
    simp [hnot]
  rw [h1]
  have h2 := cleanWindows_tokenWindows_of_fresh now pm s hfresh
  exact ⟨h2, rfl, by rw [h2]⟩

/-- Witness for `C10_reservation_stands_without_usage`: a response whose meta
has `promptTokens` undefined, against a ledger holding one fresh 700-token
reservation. -/
theorem C10_reservation_stands_without_usage_witness :
    ((∀ kv ∈ ({ tokenWindows := [("gemini-2.5-flash", [⟨99000, 700, true⟩])] } :
          QuotaState).tokenWindows, ∀ e ∈ kv.2, 100000 - ROLLING_WINDOW_MS ≤ e.time) ∧
     (((some ({ promptTokens := none } : ResponseMeta)).bind
        (fun m => m.promptTokens)).getD 0 ≤ 0)) ∧
    ((afterResponse 100000 50000
        { tokenWindows := [("gemini-2.5-flash", [⟨99000, 700, true⟩])] }
        "gemini-2.5-flash" 700 (some { promptTokens := none })).1.tokenWindows
      = ({ tokenWindows := [("gemini-2.5-flash", [⟨99000, 700, true⟩])] } :
          QuotaState).tokenWindows ∧
     (afterResponse 100000 50000
        { tokenWindows := [("gemini-2.5-flash", [⟨99000, 700, true⟩])] }
        "gemini-2.5-flash" 700 (some { promptTokens := none })).2
      = some { promptTokens := none } ∧
     windowSum (getA (afterResponse 100000 50000
        { tokenWindows := [("gemini-2.5-flash", [⟨99000, 700, true⟩])] }
        "gemini-2.5-flash" 700 (some { promptTokens := none })).1.tokenWindows
        "gemini-2.5-flash" [])
      = windowSum (getA ({ tokenWindows := [("gemini-2.5-flash", [⟨99000, 700, true⟩])] } :
          QuotaState).tokenWindows "gemini-2.5-flash" [])) :=
  ⟨⟨by decide, by decide⟩,
    C10_reservation_stands_without_usage 100000 50000
      { tokenWindows := [("gemini-2.5-flash", [⟨99000, 700, true⟩])] }
      "gemini-2.5-flash" 700 (some { promptTokens := none }) (by decide) (by decide)⟩

/-! ## C5: summarization trigger conditions -/

/-- A memory config whose token trigger is 10 (the `createConversation`
caller may override any config field). -/
def c5Config : MemoryConfig :=
  { maxRecentMessages := 40, memoryBankTokenCap := 100000,
    summarizationTrigger := { minMessages := 30, maxTokens := 10 } }

/-- A 44-character user message; with the `mixed` content type used for user
messages its cached estimate is `ceil(44/4) = 11` tokens. -/
def c5Text : String := "0123456789012345678901234567890123456789abcd"

/-- C5 counterexample: the claim asserts that exceeding the token threshold
triggers summarization regardless of how few messages are buffered.  Adding
a single message whose estimate (11) exceeds `summarizationTrigger.maxTokens`
(10) does NOT trigger summarization, because `checkAndSummarize` returns
early while fewer than `summarizationTrigger.minMessages` (30) messages are
buffered. -/
theorem C5_counterexample :
    c5Config.summarizationTrigger.maxTokens <
      recentTokensOf (addMessage c5Config [] "m1" Role.user c5Text 1000).1 ∧
    (addMessage c5Config [] "m1" Role.user c5Text 1000).2 = false := by
  decide

/-- C5 amended: the two trigger conditions of the claim decide summarization
only once the buffer holds at least `summarizationTrigger.minMessages`
messages; below that floor `checkAndSummarize` never summarizes, whatever
the token total. -/
theorem C5_trigger_characterization :
    (∀ (config : MemoryConfig) (msgs : List RawMessage),
        config.summarizationTrigger.minMessages ≤ msgs.length →
        (checkAndSummarizeTriggered config msgs = true ↔
          (config.maxRecentMessages < msgs.length ∨
           config.summarizationTrigger.maxTokens < recentTokensOf msgs))) ∧
    (∀ (config : MemoryConfig) (msgs : List RawMessage),
        msgs.length < config.summarizationTrigger.minMessages →
        checkAndSummarizeTriggered config msgs = false) := by
  constructor
  · intro config msgs h
    unfold checkAndSummarizeTriggered
    rw [if_neg (Nat.not_lt.mpr h)]
    simp
  · intro config msgs h
    unfold checkAndSummarizeTriggered
    rw [if_pos h]

/-- Witness for `C5_trigger_characterization` at concrete configs/buffers. -/
theorem C5_trigger_characterization_witness :
    (((⟨0, 100000, ⟨1, 10⟩⟩ : MemoryConfig).summarizationTrigger.minMessages ≤
        [(⟨"m", Role.user, "t", 0, some 50⟩ : RawMessage)].length ∧
      (checkAndSummarizeTriggered ⟨0, 100000, ⟨1, 10⟩⟩
          [(⟨"m", Role.user, "t", 0, some 50⟩ : RawMessage)] = true ↔
        ((⟨0, 100000, ⟨1, 10⟩⟩ : MemoryConfig).maxRecentMessages <
            [(⟨"m", Role.user, "t", 0, some 50⟩ : RawMessage)].length ∨
          (⟨0, 100000, ⟨1, 10⟩⟩ : MemoryConfig).summarizationTrigger.maxTokens <
            recentTokensOf [(⟨"m", Role.user, "t", 0, some 50⟩ : RawMessage)]))) ∧
     ([(⟨"m", Role.user, "t", 0, some 50⟩ : RawMessage)].length <
        (⟨0, 100000, ⟨2, 10⟩⟩ : MemoryConfig).summarizationTrigger.minMessages ∧
      checkAndSummarizeTriggered ⟨0, 100000, ⟨2, 10⟩⟩
          [(⟨"m", Role.user, "t", 0, some 50⟩ : RawMessage)] = false)) :=
  ⟨⟨by decide, C5_trigger_characterization.1 ⟨0, 100000, ⟨1, 10⟩⟩
      [(⟨"m", Role.user, "t", 0, some 50⟩ : RawMessage)] (by decide)⟩,
   ⟨by decide, C5_trigger_characterization.2 ⟨0, 100000, ⟨2, 10⟩⟩
      [(⟨"m", Role.user, "t", 0, some 50⟩ : RawMessage)] (by decide)⟩⟩

/-! ## C6: token estimator floor values -/

/-- C6 counterexample: the claim asserts the token estimator never returns
zero, with the empty string yielding a small non-zero floor.  The frontend
`TokenCounter.estimate` (one of the claim's two cited estimators) returns 0
for the empty string - its first line is
`if (!text || text.length === 0) return 0`.  (It can also undercut the ≈4
floor on short non-empty input: a single-character natural-language text
estimates to 2.) -/
theorem C6_counterexample :
    TokenCounter.estimate "" none = 0 ∧
    TokenCounter.estimate "a" (some ContentType.natural) = 2 := by
  decide

/-- C6 amended: the floor property holds for the backend `estimateTokens`
(the estimator the quota ledger uses): it returns at least 4 for EVERY
input, and exactly 4 for the empty string; the frontend
`TokenCounter.estimate` returns 0 for empty input. -/
theorem C6_backend_estimator_floor :
    (∀ text : String, 4 ≤ estimateTokens text) ∧ estimateTokens "" = 4 := by
  constructor
  · intro text
    unfold estimateTokens
    by_cases h : (jsTrim text).length = 0 <;> simp [h, le_sup_left]
  · decide

/-! ## C7: memory-bank compression -/

theorem withTokenCountSummary_originalMessageIds (e : SummaryEntry) (ct : Option ContentType) :
    (withTokenCountSummary e ct).originalMessageIds = e.originalMessageIds := by
  unfold withTokenCountSummary
  cases e.estimatedTokens <;> simp

/-- C7: whenever compression runs with at least 3 summaries and the
auxiliary summarizer call succeeds with non-empty (trimmed) text, the bank
afterwards holds exactly 2 entries - first the new meta-summary, whose
`originalMessageIds` merge those of all older summaries, then the previously
newest summary kept unmerged; with fewer than 3 summaries compression is a
no-op for every summarizer outcome. -/
theorem C7_compression_bank_shape :
    (∀ (bank : MemoryBank) (now : Nat) (text : String),
        3 ≤ bank.summaries.length → jsTrim text ≠ "" →
        ((compressMemoryBank bank now (some text)).summaries.length = 2 ∧
         (compressMemoryBank bank now (some text)).summaries.getLast?
            = bank.summaries.getLast? ∧
         ((compressMemoryBank bank now (some text)).summaries.head?.map
            (fun e => e.originalMessageIds))
            = some ((bank.summaries.dropLast.map
                (fun e => e.originalMessageIds)).flatten))) ∧
    (∀ (bank : MemoryBank) (now : Nat) (responseText : Option String),
        bank.summaries.length < 3 →
        compressMemoryBank bank now responseText = bank) := by
  constructor
  · intro bank now text h3 htext
    have hnl : ¬ bank.summaries.length < 3 := not_lt.mpr h3
    have hne : bank.summaries ≠ [] := by
      intro h
      rw [h] at h3
      simp at h3
    have hsome : bank.summaries.getLast?.isSome := List.getLast?_isSome.mpr hne
    obtain ⟨x, hx⟩ := Option.isSome_iff_exists.mp hsome
    unfold compressMemoryBank
    rw [if_neg hnl]
    simp only [if_pos htext]
    refine ⟨rfl, ?_, ?_⟩
    · simp [hx]
    · simp [withTokenCountSummary_originalMessageIds]
  · intro bank now responseText hlt
    unfold compressMemoryBank
    rw [if_pos hlt]

/-- A concrete bank of three summaries for the C7 witness. -/
def c7Bank : MemoryBank :=
  { summaries :=
      [⟨"s1", "first", ["m1"], 10, Category.general, some 100⟩,
       ⟨"s2", "second", ["m2", "m3"], 20, Category.general, some 120⟩,
       ⟨"s3", "third", ["m4"], 30, Category.general, some 90⟩],
    totalTokens := 310, version := 1 }

/-- Witness for `C7_compression_bank_shape` at a concrete 3-summary bank and
a concrete successful summarizer response. -/
theorem C7_compression_bank_shape_witness :
    ((3 ≤ c7Bank.summaries.length ∧ jsTrim "Project memory." ≠ "" ∧
      ((compressMemoryBank c7Bank 99 (some "Project memory.")).summaries.length = 2 ∧
       (compressMemoryBank c7Bank 99 (some "Project memory.")).summaries.getLast?
          = c7Bank.summaries.getLast? ∧
       ((compressMemoryBank c7Bank 99 (some "Project memory.")).summaries.head?.map
          (fun e => e.originalMessageIds))
          = some ((c7Bank.summaries.dropLast.map (fun e => e.originalMessageIds)).flatten))) ∧
     ((⟨"s1", "a", [], 0, Category.general, some 1⟩ : SummaryEntry) ::
          [⟨"s2", "b", [], 0, Category.general, some 1⟩]).length < 3 ∧
      compressMemoryBank
        { summaries := [⟨"s1", "a", [], 0, Category.general, some 1⟩,
                        ⟨"s2", "b", [], 0, Category.general, some 1⟩],
          totalTokens := 2, version := 1 } 99 (some "Project memory.")
        = { summaries := [⟨"s1", "a", [], 0, Category.general, some 1⟩,
                          ⟨"s2", "b", [], 0, Category.general, some 1⟩],
            totalTokens := 2, version := 1 }) :=
  ⟨⟨by decide, by decide,
    C7_compression_bank_shape.1 c7Bank 99 "Project memory." (by decide) (by decide)⟩,
   ⟨by decide,
    C7_compression_bank_shape.2
      { summaries := [⟨"s1", "a", [], 0, Category.general, some 1⟩,
                      ⟨"s2", "b", [], 0, Category.general, some 1⟩],
        totalTokens := 2, version := 1 } 99 (some "Project memory.") (by decide)⟩⟩

/-! ## C8: streaming event sequences -/

/-- C8 counterexample: the claim asserts every request's event sequence is
zero or more deltas followed by exactly one terminal event.  A request whose
single upstream attempt streams one chunk and then throws a non-retryable
error delivers `[delta]` to the observer and then rejects the promise - no
terminal `done`/`error` event is ever emitted for that key. -/
theorem C8_counterexample :
    (executeStandardGenerationEvents "req1"
        [(false, UpstreamOutcome.chunksThenThrow ["Hello"] ⟨"boom", none⟩)] 0 false false)
      = ([StreamEvent.delta "req1" "Hello"], false) ∧
    ¬ deltasThenOneTerminal [StreamEvent.delta "req1" "Hello"] := by
  constructor
  · simp +decide [executeStandardGenerationEvents, execFailure, chunkDeltas]
  · rintro ⟨ds, t, heq, hds, ht⟩
    rcases ds with _ | ⟨d, ds⟩
    · simp only [List.nil_append, List.cons.injEq, and_true] at heq
      rw [← heq] at ht
      exact absurd ht (by decide)
    · have hlen := congrArg List.length heq
      simp [List.length_append] at hlen

theorem chunkDeltas_not_terminal (key : String) (chunks : List String) :
    ∀ e ∈ chunkDeltas key chunks, isTerminal e = false := by
  intro e he
  unfold chunkDeltas at he
  obtain ⟨c, _, rfl⟩ := List.mem_map.mp he
  rfl

theorem deltasThenOneTerminal_append (evs l : List StreamEvent)
    (h : ∀ e ∈ evs, isTerminal e = false) (hl : deltasThenOneTerminal l) :
    deltasThenOneTerminal (evs ++ l) := by
  obtain ⟨ds, t, rfl, hds, ht⟩ := hl
  refine ⟨evs ++ ds, t, by rw [List.append_assoc], ?_, ht⟩
  intro e he
  rcases List.mem_append.mp he with h' | h'
  · exact h e h'
  · exact hds e h'

theorem pace_events_not_terminal (key : String) (b : Bool) :
    ∀ e ∈ (if b then [StreamEvent.delta key "Pacing..."] else []), isTerminal e = false := by
  intro e he
  cases b <;> simp at he
  subst he
  rfl

/-- The failure-handling half of the induction for `C8`. -/
theorem execFailure_success_shape (key : String)
    (rest : List (Bool × UpstreamOutcome)) (attempt : Nat)
    (tnt tns : Bool) (evs : List StreamEvent) (err : ErrorInput)
    (hevs : ∀ e ∈ evs, isTerminal e = false)
    (ih : ∀ (attempt' : Nat) (tnt' tns' : Bool),
      (executeStandardGenerationEvents key rest attempt' tnt' tns').2 = true →
      deltasThenOneTerminal (executeStandardGenerationEvents key rest attempt' tnt' tns').1) :
    (execFailure key rest attempt tnt tns evs err).2 = true →
    deltasThenOneTerminal (execFailure key rest attempt tnt tns evs err).1 := by
  intro hok
  unfold execFailure at hok ⊢
  dsimp only at hok ⊢
  split_ifs at hok ⊢
  all_goals first
    | exact deltasThenOneTerminal_append _ _ hevs (ih _ _ _ hok)
    | exact absurd hok Bool.false_ne_true
    | (dsimp only
       refine deltasThenOneTerminal_append _ _ ?_ (ih _ _ _ hok)
       intro e he
       rcases List.mem_append.mp he with h' | h'
       · exact hevs e h'
       · simp only [List.mem_singleton] at h'
         subst h'
         rfl)

/-- C8 amended, positive half: every request that resolves successfully
delivers zero or more delta events (pacing notices, retry notices and text
chunks) followed by exactly one terminal `done` event, with nothing after
it. -/
theorem C8_success_stream_shape (key : String) :
    ∀ (script : List (Bool × UpstreamOutcome)) (attempt : Nat) (tnt tns : Bool),
    (executeStandardGenerationEvents key script attempt tnt tns).2 = true →
    deltasThenOneTerminal (executeStandardGenerationEvents key script attempt tnt tns).1 := by
  intro script
  induction script with
  | nil =>
    intro attempt tnt tns h
    simp [executeStandardGenerationEvents] at h
  | cons p rest ih =>
    intro attempt tnt tns h
    obtain ⟨pace, outcome⟩ := p
    cases outcome with
    | abortedDuring chunks =>
      rw [executeStandardGenerationEvents] at h
      simp at h
    | chunksThenComplete chunks =>
      rw [executeStandardGenerationEvents] at h ⊢
      by_cases hempty : String.join chunks = ""
      · rw [if_pos hempty] at h ⊢
        exact execFailure_success_shape key rest attempt tnt tns _ _
          (by
            intro e he
            rcases List.mem_append.mp he with h' | h'
            · exact pace_events_not_terminal key pace e h'
            · exact chunkDeltas_not_terminal key chunks e h')
          (fun a t1 t2 => ih a t1 t2) h
      · rw [if_neg hempty]
        refine ⟨(if pace then [StreamEvent.delta key "Pacing..."] else []) ++
            chunkDeltas key chunks, StreamEvent.done key, by simp, ?_, rfl⟩
        intro e he
        rcases List.mem_append.mp he with h' | h'
        · exact pace_events_not_terminal key pace e h'
        · exact chunkDeltas_not_terminal key chunks e h'
    | chunksThenThrow chunks err =>
      rw [executeStandardGenerationEvents] at h ⊢
      exact execFailure_success_shape key rest attempt tnt tns _ _
        (by
          intro e he
          rcases List.mem_append.mp he with h' | h'
          · exact pace_events_not_terminal key pace e h'
          · exact chunkDeltas_not_terminal key chunks e h')
        (fun a t1 t2 => ih a t1 t2) h

/-- Witness for `C8_success_stream_shape`: a retryable 503 failure followed
by a successful attempt resolves, and its event list is deltas followed by
one `done`. -/
theorem C8_success_stream_shape_witness :
    (executeStandardGenerationEvents "req2"
        [(true, UpstreamOutcome.chunksThenThrow ["a"] ⟨"503 Service Unavailable", none⟩),
         (false, UpstreamOutcome.chunksThenComplete ["Hi"])] 0 false false).2 = true ∧
    deltasThenOneTerminal (executeStandardGenerationEvents "req2"
        [(true, UpstreamOutcome.chunksThenThrow ["a"] ⟨"503 Service Unavailable", none⟩),
         (false, UpstreamOutcome.chunksThenComplete ["Hi"])] 0 false false).1 :=
  ⟨by simp +decide [executeStandardGenerationEvents, execFailure, chunkDeltas],
   C8_success_stream_shape "req2"
      [(true, UpstreamOutcome.chunksThenThrow ["a"] ⟨"503 Service Unavailable", none⟩),
       (false, UpstreamOutcome.chunksThenComplete ["Hi"])] 0 false false
      (by simp +decide [executeStandardGenerationEvents, execFailure, chunkDeltas])⟩

/-! ## C9: error classification and retry backoff -/

/-- C9: `classifyError` marks authentication failures (status 401 /
UNAUTHENTICATED / API-key messages), upstream quota exhaustion, and
cancellation as non-retryable; marks rate-limit (429 / RESOURCE_EXHAUSTED),
service-overload/503, stream-parse, network-fetch, and other 5xx errors as
retryable; everything else is non-retryable and surfaced as-is; and the
retry backoff uses a strictly longer base delay for service-overload-class
errors than for generic network errors, scaled exponentially.  (Each case
carries the negations of the earlier patterns, since the source checks them
in this order.) -/
theorem C9_classification_table :
    (∀ e : ErrorInput, strContainsCI e.message "abort" = true →
      classifyError e = ⟨false, ErrorCategory.canceled, e.message⟩) ∧
    (∀ e : ErrorInput, strContainsCI e.message "abort" = false →
      (e.status = some 401 ∨
        containsAnyCI e.message ["UNAUTHENTICATED", "permission", "unauthorized", "API key"]
          = true) →
      classifyError e = ⟨false, ErrorCategory.auth, e.message⟩) ∧
    (∀ e : ErrorInput, strContainsCI e.message "abort" = false →
      e.status ≠ some 401 →
      containsAnyCI e.message ["UNAUTHENTICATED", "permission", "unauthorized", "API key"]
        = false →
      strContainsCI e.message "quota" = true →
      (strContainsCI e.message "exceed" = true ∨ strContainsCI e.message "exhaust" = true) →
      classifyError e = ⟨false, ErrorCategory.quota, e.message⟩) ∧
    (∀ e : ErrorInput, strContainsCI e.message "abort" = false →
      e.status ≠ some 401 →
      containsAnyCI e.message ["UNAUTHENTICATED", "permission", "unauthorized", "API key"]
        = false →
      (strContainsCI e.message "quota" = false ∨
        (strContainsCI e.message "exceed" = false ∧ strContainsCI e.message "exhaust" = false)) →
      (e.status = some 429 ∨ containsAnyCI e.message ["rate", "RESOURCE_EXHAUSTED"] = true) →
      classifyError e = ⟨true, ErrorCategory.rate, e.message⟩) ∧
    (∀ e : ErrorInput,
      containsAnyCI e.message ["overloaded", "503", "Service Unavailable"] = true →
      strContainsCI e.message "abort" = false →
      e.status ≠ some 401 →
      containsAnyCI e.message ["UNAUTHENTICATED", "permission", "unauthorized", "API key"]
        = false →
      (strContainsCI e.message "quota" = false ∨
        (strContainsCI e.message "exceed" = false ∧ strContainsCI e.message "exhaust" = false)) →
      e.status ≠ some 429 →
      containsAnyCI e.message ["rate", "RESOURCE_EXHAUSTED"] = false →
      (classifyError e).retryable = true) ∧
    (∀ e : ErrorInput,
      matchesParseStream e.message = true →
      strContainsCI e.message "abort" = false →
      e.status ≠ some 401 →
      containsAnyCI e.message ["UNAUTHENTICATED", "permission", "unauthorized", "API key"]
        = false →
      (strContainsCI e.message "quota" = false ∨
        (strContainsCI e.message "exceed" = false ∧ strContainsCI e.message "exhaust" = false)) →
      e.status ≠ some 429 →
      containsAnyCI e.message ["rate", "RESOURCE_EXHAUSTED"] = false →
      (classifyError e).retryable = true) ∧
    (∀ e : ErrorInput,
      strContainsCI e.message "Error fetching" = true →
      strContainsCI e.message "abort" = false →
      e.status ≠ some 401 →
      containsAnyCI e.message ["UNAUTHENTICATED", "permission", "unauthorized", "API key"]
        = false →
      (strContainsCI e.message "quota" = false ∨
        (strContainsCI e.message "exceed" = false ∧ strContainsCI e.message "exhaust" = false)) →
      e.status ≠ some 429 →
      containsAnyCI e.message ["rate", "RESOURCE_EXHAUSTED"] = false →
      (classifyError e).retryable = true) ∧
    (∀ (e : ErrorInput) (n : Int), e.status = some n → 500 ≤ n → n < 600 →
      strContainsCI e.message "abort" = false →
      containsAnyCI e.message ["UNAUTHENTICATED", "permission", "unauthorized", "API key"]
        = false →
      (strContainsCI e.message "quota" = false ∨
        (strContainsCI e.message "exceed" = false ∧ strContainsCI e.message "exhaust" = false)) →
      containsAnyCI e.message ["rate", "RESOURCE_EXHAUSTED"] = false →
      containsAnyCI e.message ["overloaded", "503", "Service Unavailable"] = false →
      matchesParseStream e.message = false →
      strContainsCI e.message "Error fetching" = false →
      classifyError e = ⟨true, ErrorCategory.other, e.message⟩) ∧
    (∀ e : ErrorInput,
      strContainsCI e.message "abort" = false →
      e.status ≠ some 401 →
      containsAnyCI e.message ["UNAUTHENTICATED", "permission", "unauthorized", "API key"]
        = false →
      (strContainsCI e.message "quota" = false ∨
        (strContainsCI e.message "exceed" = false ∧ strContainsCI e.message "exhaust" = false)) →
      e.status ≠ some 429 →
      containsAnyCI e.message ["rate", "RESOURCE_EXHAUSTED"] = false →
      containsAnyCI e.message ["overloaded", "503", "Service Unavailable"] = false →
      matchesParseStream e.message = false →
      strContainsCI e.message "Error fetching" = false →
      (∀ n : Int, e.status = some n → n < 500 ∨ 600 ≤ n) →
      classifyError e = ⟨false, ErrorCategory.other, e.message⟩) ∧
    (∀ (m mNet : String) (attempt : Nat),
      isServiceIssue m = true → isServiceIssue mNet = false →
      retryBackoffMs mNet attempt < retryBackoffMs m attempt) := by
  have hd401f : ∀ e : ErrorInput, e.status ≠ some 401 → decide (e.status = some 401) = false :=
    fun e h => decide_eq_false h
  have hd429f : ∀ e : ErrorInput, e.status ≠ some 429 → decide (e.status = some 429) = false :=
    fun e h => decide_eq_false h
  have hqf : ∀ e : ErrorInput,
      (strContainsCI e.message "quota" = false ∨
        (strContainsCI e.message "exceed" = false ∧ strContainsCI e.message "exhaust" = false)) →
      (strContainsCI e.message "quota" &&
        (strContainsCI e.message "exceed" || strContainsCI e.message "exhaust")) = false := by
    intro e h
    rcases h with h | ⟨ha, hb⟩
    · simp [h]
    · simp [ha, hb]
  refine ⟨?_, ?_, ?_, ?_, ?_, ?_, ?_, ?_, ?_, ?_⟩
  · intro e h1
    simp [classifyError, h1]
  · intro e h1 h2
    rcases h2 with h2 | h2
    · simp [classifyError, h1, decide_eq_true h2]
    · simp [classifyError, h1, h2]
  · intro e h1 h2 h3 h4 h5
    rcases h5 with h5 | h5 <;>
      simp [classifyError, h1, hd401f e h2, h3, h4, h5]
  · intro e h1 h2 h3 h4 h5
    rcases h5 with h5 | h5
    · simp [classifyError, h1, hd401f e h2, h3, hqf e h4, decide_eq_true h5]
    · simp [classifyError, h1, hd401f e h2, h3, hqf e h4, h5]
  · intro e h0 h1 h2 h3 h4 h5 h6
    simp [classifyError, h0, h1, hd401f e h2, h3, hqf e h4, hd429f e h5, h6]
  · intro e h0 h1 h2 h3 h4 h5 h6
    cases hov : containsAnyCI e.message ["overloaded", "503", "Service Unavailable"] <;>
      simp [classifyError, h0, h1, hd401f e h2, h3, hqf e h4, hd429f e h5, h6, hov]
  · intro e h0 h1 h2 h3 h4 h5 h6
    cases hov : containsAnyCI e.message ["overloaded", "503", "Service Unavailable"] <;>
      cases hps : matchesParseStream e.message <;>
        simp [classifyError, h0, h1, hd401f e h2, h3, hqf e h4, hd429f e h5, h6, hov, hps]
  · intro e n hn h500 h600 h1 h3 h4 h5 h6 h7 h8
    have h2 : e.status ≠ some 401 := by rw [hn]; intro h; injection h with h; omega
    have h429 : e.status ≠ some 429 := by rw [hn]; intro h; injection h with h; omega
    have hne401 : n ≠ 401 := by omega
    have hne429 : n ≠ 429 := by omega
    simp [classifyError, h1, hd401f e h2, h3, hqf e h4, hd429f e h429, h5, h6, h7, h8, hn,
      h500, h600, hne401, hne429]
  · intro e h1 h2 h3 h4 h5 h6 h7 h8 h9 hstatus
    cases hs : e.status with
    | none =>
      simp [classifyError, h1, hd401f e h2, h3, hqf e h4, hd429f e h5, h6, h7, h8, h9, hs]
    | some n =>
      have hrange := hstatus n hs
      have hnotrange : ¬ (500 ≤ n ∧ n < 600) := by rcases hrange with hr | hr <;> omega
      have hne401 : n ≠ 401 := by intro heq; exact h2 (by rw [hs, heq])
      have hne429 : n ≠ 429 := by intro heq; exact h5 (by rw [hs, heq])
      simp [classifyError, h1, hd401f e h2, h3, hqf e h4, hd429f e h5, h6, h7, h8, h9, hs,
        hnotrange, hne401, hne429]
  · intro m mNet attempt hm hmNet
    have h2 : (0 : Nat) < 2 ^ attempt := Nat.pos_pow_of_pos attempt (by omega)
    simp only [retryBackoffMs, hm, hmNet, SERVICE_OVERLOAD_BASE_DELAY,
      NETWORK_RETRY_BASE_DELAY, if_true, Bool.false_eq_true, if_false]
    exact mul_lt_mul_of_pos_right (by omega) h2

/-- Witness for `C9_classification_table`: one concrete error per class. -/
theorem C9_classification_table_witness :
    classifyError ⟨"Request aborted", none⟩
      = ⟨false, ErrorCategory.canceled, "Request aborted"⟩ ∧
    classifyError ⟨"Invalid API key provided", some 401⟩
      = ⟨false, ErrorCategory.auth, "Invalid API key provided"⟩ ∧
    classifyError ⟨"quota exceeded for project", none⟩
      = ⟨false, ErrorCategory.quota, "quota exceeded for project"⟩ ∧
    classifyError ⟨"RESOURCE_EXHAUSTED", some 429⟩
      = ⟨true, ErrorCategory.rate, "RESOURCE_EXHAUSTED"⟩ ∧
    (classifyError ⟨"503 Service Unavailable", none⟩).retryable = true ∧
    (classifyError ⟨"Failed to parse stream", none⟩).retryable = true ∧
    (classifyError ⟨"Error fetching from upstream", none⟩).retryable = true ∧
    classifyError ⟨"Internal", some 500⟩ = ⟨true, ErrorCategory.other, "Internal"⟩ ∧
    classifyError ⟨"Something odd happened", some 418⟩
      = ⟨false, ErrorCategory.other, "Something odd happened"⟩ ∧
    retryBackoffMs "connection reset" 2 < retryBackoffMs "503" 2 := by
  obtain ⟨c1, c2, c3, c4, c5, c6, c7, c8, c9, c10⟩ := C9_classification_table
  refine ⟨c1 _ (by decide), c2 _ (by decide) (Or.inl (by decide)),
    c3 _ (by decide) (by decide) (by decide) (by decide) (Or.inl (by decide)),
    c4 _ (by decide) (by decide) (by decide) (Or.inl (by decide)) (Or.inl (by decide)),
    c5 _ (by decide) (by decide) (by decide) (by decide) (Or.inl (by decide)) (by decide)
      (by decide),
    c6 _ (by decide) (by decide) (by decide) (by decide) (Or.inl (by decide)) (by decide)
      (by decide),
    c7 _ (by decide) (by decide) (by decide) (by decide) (Or.inl (by decide)) (by decide)
      (by decide),
    c8 _ 500 (by decide) (by decide) (by decide) (by decide) (by decide)
      (Or.inl (by decide)) (by decide) (by decide) (by decide) (by decide),
    c9 _ (by decide) (by decide) (by decide) (Or.inl (by decide)) (by decide) (by decide)
      (by decide) (by decide) (by decide) ?_,
    c10 "503" "connection reset" 2 (by decide) (by decide)⟩
  intro n h
  injection h with h'
  omega

/-! ## C2: FIFO ordering of admissions -/

/-- A flash request with a 1000-token reservation. -/
def flashReq (i : Nat) (t : Nat) : Pending :=
  { id := i, model := "gemini-2.5-flash", reservationTokens := 1000, enqueuedAt := t }

/-- C2 counterexample trace: request 0 is admitted at t = 100000; request 1
(same model) is submitted at t = 102000 and queued (minimum spacing not yet
elapsed); the queue cycles at their natural firing times fail to admit it;
request 2 is submitted at t = 106020 - after spacing has elapsed but before
the next queue cycle at t = 106050 - and `generate` starts it immediately,
bypassing the still-queued request 1. -/
def c2Events : List SchedEvent :=
  [SchedEvent.submit (flashReq 0 100000) 100000,
   SchedEvent.cycle 100025,
   SchedEvent.submit (flashReq 1 102000) 102000,
   SchedEvent.cycle 102025,
   SchedEvent.cycle 103050,
   SchedEvent.cycle 104050,
   SchedEvent.cycle 105050,
   SchedEvent.submit (flashReq 2 106020) 106020,
   SchedEvent.cycle 106050]

/-- C2 counterexample: request 2, submitted for the same ModelKey after
request 1, is started while request 1 is still in the queue - submission
order is not admission order. -/
theorem C2_counterexample :
    startedIds (schedRun 50000 {} c2Events) = [0, 2] ∧
    queueIds (schedRun 50000 {} c2Events) = [1] := by
  decide

theorem submitIds_append (l₁ l₂ : List SchedEvent) :
    submitIds (l₁ ++ l₂) = submitIds l₁ ++ submitIds l₂ := by
  induction l₁ with
  | nil => rfl
  | cons e rest ih =>
    cases e with
    | submit p t => simp [submitIds, ih]
    | cycle t => simp [submitIds, ih]

theorem schedRun_append (pm : Nat) (st : SchedState) (l₁ l₂ : List SchedEvent) :
    schedRun pm st (l₁ ++ l₂) = schedRun pm (schedRun pm st l₁) l₂ :=
  List.foldl_append _ _ _ _

/-- Model of `generate` either starts the submitted request (queue unchanged, log
extended by its id) or appends it to the queue (log unchanged). -/
theorem submit_cases (now pm : Nat) (st : SchedState) (p : Pending) :
    ((submit now pm st p).queue = st.queue ∧
     (submit now pm st p).startedLog = st.startedLog ++ [(p.id, now)]) ∨
    ((submit now pm st p).queue = st.queue ++ [p] ∧
     (submit now pm st p).startedLog = st.startedLog) := by
  unfold submit
  dsimp only
  split_ifs <;> simp

/-- If the submission is not admittable, it is queued. -/
theorem submit_not_admitted (now pm : Nat) (st : SchedState) (p : Pending)
    (h : canStartNow now pm st.quota p.model p.reservationTokens = false) :
    (submit now pm st p).queue = st.queue ++ [p] ∧
    (submit now pm st p).startedLog = st.startedLog := by
  unfold submit
  dsimp only
  rw [show canStartNowChecks now (cleanWindows now pm st.quota) p.model p.reservationTokens
      = false from h]
  simp

/-- Model of `runQueueCycle` either leaves queue and log unchanged, or pops exactly
the queue head and appends its id to the log. -/
theorem runQueueCycle_cases (now pm : Nat) (st : SchedState) :
    ((runQueueCycle now pm st).queue = st.queue ∧
     (runQueueCycle now pm st).startedLog = st.startedLog) ∨
    (∃ next rest, st.queue = next :: rest ∧
     (runQueueCycle now pm st).queue = rest ∧
     (runQueueCycle now pm st).startedLog = st.startedLog ++ [(next.id, now)]) := by
  unfold runQueueCycle
  cases hq : st.queue with
  | nil => simp [hq]
  | cons next rest =>
    dsimp only
    split_ifs with h
    · exact Or.inr ⟨next, rest, rfl, rfl, rfl⟩
    · simp

theorem mem_queueIds_schedStep_rev (pm : Nat) (st : SchedState) (e : SchedEvent)
    {x : Nat} (h : x ∈ queueIds (schedStep pm st e)) :
    x ∈ queueIds st ∨ x ∈ submitIds [e] := by
  unfold queueIds at h ⊢
  cases e with
  | submit p t =>
    rw [schedStep] at h
    rcases submit_cases t pm st p with ⟨hq, _⟩ | ⟨hq, _⟩
    · rw [hq] at h
      exact Or.inl h
    · rw [hq, List.map_append] at h
      rcases List.mem_append.mp h with h | h
      · exact Or.inl h
      · simp only [List.map_cons, List.map_nil, List.mem_singleton] at h
        subst h
        exact Or.inr (by simp [submitIds])
  | cycle t =>
    rw [schedStep] at h
    rcases runQueueCycle_cases t pm st with ⟨hq, _⟩ | ⟨next, rest, hst, hq, _⟩
    · rw [hq] at h
      exact Or.inl h
    · rw [hq] at h
      refine Or.inl ?_
      rw [hst]
      simp only [List.map_cons]
      exact List.mem_cons_of_mem _ h

theorem mem_startedIds_schedStep_rev (pm : Nat) (st : SchedState) (e : SchedEvent)
    {x : Nat} (h : x ∈ startedIds (schedStep pm st e)) :
    x ∈ startedIds st ∨ x ∈ queueIds st ∨ x ∈ submitIds [e] := by
  unfold startedIds at h ⊢
  unfold queueIds
  cases e with
  | submit p t =>
    rw [schedStep] at h
    rcases submit_cases t pm st p with ⟨_, hl⟩ | ⟨_, hl⟩
    · rw [hl, List.map_append] at h
      rcases List.mem_append.mp h with h | h
      · exact Or.inl h
      · simp only [List.map_cons, List.map_nil, List.mem_singleton] at h
        subst h
        exact Or.inr (Or.inr (by simp [submitIds]))
    · rw [hl] at h
      exact Or.inl h
  | cycle t =>
    rw [schedStep] at h
    rcases runQueueCycle_cases t pm st with ⟨_, hl⟩ | ⟨next, rest, hst, _, hl⟩
    · rw [hl] at h
      exact Or.inl h
    · rw [hl, List.map_append] at h
      rcases List.mem_append.mp h with h | h
      · exact Or.inl h
      · simp only [List.map_cons, List.map_nil, List.mem_singleton] at h
        subst h
        refine Or.inr (Or.inl ?_)
        rw [hst]
        simp only [List.map_cons]
        exact List.mem_cons_self _ _

theorem mem_startedIds_schedRun_rev (pm : Nat) :
    ∀ (evs : List SchedEvent) (st : SchedState) (x : Nat),
    x ∈ startedIds (schedRun pm st evs) →
    x ∈ startedIds st ∨ x ∈ queueIds st ∨ x ∈ submitIds evs := by
  intro evs
  induction evs with
  | nil => intro st x h; exact Or.inl h
  | cons e rest ih =>
    intro st x h
    rcases ih (schedStep pm st e) x h with h' | h' | h'
    · rcases mem_startedIds_schedStep_rev pm st e h' with h'' | h'' | h''
      · exact Or.inl h''
      · exact Or.inr (Or.inl h'')
      · refine Or.inr (Or.inr ?_)
        cases e with
        | submit p t => simpa [submitIds] using Or.inl (by simpa [submitIds] using h'')
        | cycle t => simp [submitIds] at h''
    · rcases mem_queueIds_schedStep_rev pm st e h' with h'' | h''
      · exact Or.inr (Or.inl h'')
      · refine Or.inr (Or.inr ?_)
        cases e with
        | submit p t => simpa [submitIds] using Or.inl (by simpa [submitIds] using h'')
        | cycle t => simp [submitIds] at h''
    · refine Or.inr (Or.inr ?_)
      cases e with
      | submit p t => exact List.mem_cons_of_mem _ h'
      | cycle t => exact h'

theorem queueIds_schedRun_sublist (pm : Nat) :
    ∀ (evs : List SchedEvent) (st : SchedState),
    List.Sublist (queueIds (schedRun pm st evs)) (queueIds st ++ submitIds evs) := by
  intro evs
  induction evs with
  | nil =>
    intro st
    rw [show submitIds [] = ([] : List Nat) from rfl, List.append_nil]
    exact List.Sublist.refl _
  | cons e rest ih =>
    intro st
    have step : List.Sublist (queueIds (schedStep pm st e))
        (queueIds st ++ submitIds [e]) := by
      unfold queueIds
      cases e with
      | submit p t =>
        rw [schedStep]
        rcases submit_cases t pm st p with ⟨hq, _⟩ | ⟨hq, _⟩
        · rw [hq]
          exact List.sublist_append_left _ _
        · rw [hq, List.map_append]
          simp only [submitIds, List.map_cons, List.map_nil]
          exact List.Sublist.refl _
      | cycle t =>
        rw [schedStep]
        rcases runQueueCycle_cases t pm st with ⟨hq, _⟩ | ⟨next, rest', hst, hq, _⟩
        · rw [hq]
          exact List.sublist_append_left _ _
        · rw [hq]
          refine List.Sublist.trans ?_ (List.sublist_append_left _ _)
          rw [hst]
          simp only [List.map_cons]
          exact List.sublist_cons_self _ _
    have h1 : List.Sublist (queueIds (schedRun pm st (e :: rest)))
        (queueIds (schedStep pm st e) ++ submitIds rest) := ih _
    have h2 : List.Sublist (queueIds (schedStep pm st e) ++ submitIds rest)
        ((queueIds st ++ submitIds [e]) ++ submitIds rest) :=
      List.Sublist.append step (List.Sublist.refl _)
    have h3 : (queueIds st ++ submitIds [e]) ++ submitIds rest
        = queueIds st ++ submitIds (e :: rest) := by
      rw [List.append_assoc, ← submitIds_append]
      rfl
    rw [h3] at h2
    exact List.Sublist.trans h1 h2

theorem startedIds_schedStep_extend (pm : Nat) (st : SchedState) (e : SchedEvent) :
    ∃ l, startedIds (schedStep pm st e) = startedIds st ++ l := by
  cases e with
  | submit p t =>
    rcases submit_cases t pm st p with ⟨_, hl⟩ | ⟨_, hl⟩
    · exact ⟨[p.id], by unfold startedIds; rw [schedStep, hl, List.map_append]; rfl⟩
    · exact ⟨[], by unfold startedIds; rw [schedStep, hl, List.append_nil]⟩
  | cycle t =>
    rcases runQueueCycle_cases t pm st with ⟨_, hl⟩ | ⟨next, rest, _, _, hl⟩
    · exact ⟨[], by unfold startedIds; rw [schedStep, hl, List.append_nil]⟩
    · exact ⟨[next.id], by unfold startedIds; rw [schedStep, hl, List.map_append]; rfl⟩

theorem startedIds_schedRun_extend (pm : Nat) :
    ∀ (evs : List SchedEvent) (st : SchedState),
    ∃ l, startedIds (schedRun pm st evs) = startedIds st ++ l := by
  intro evs
  induction evs with
  | nil => intro st; exact ⟨[], by rw [List.append_nil]; rfl⟩
  | cons e rest ih =>
    intro st
    obtain ⟨l₁, h₁⟩ := startedIds_schedStep_extend pm st e
    obtain ⟨l₂, h₂⟩ := ih (schedStep pm st e)
    exact ⟨l₁ ++ l₂, by
      show startedIds (schedRun pm (schedStep pm st e) rest) = _
      rw [h₂, h₁, List.append_assoc]⟩

theorem mem_startedIds_schedRun_mono (pm : Nat) (evs : List SchedEvent)
    (st : SchedState) {a : Nat} (h : a ∈ startedIds st) :
    a ∈ startedIds (schedRun pm st evs) := by
  obtain ⟨l, hl⟩ := startedIds_schedRun_extend pm evs st
  rw [hl]
  exact List.mem_append_left _ h

theorem mem_queue_or_started_schedRun (pm : Nat) :
    ∀ (evs : List SchedEvent) (st : SchedState) (a : Nat), a ∈ queueIds st →
    a ∈ queueIds (schedRun pm st evs) ∨ a ∈ startedIds (schedRun pm st evs) := by
  intro evs
  induction evs with
  | nil => intro st a h; exact Or.inl h
  | cons e rest ih =>
    intro st a h
    have hstep : a ∈ queueIds (schedStep pm st e) ∨ a ∈ startedIds (schedStep pm st e) := by
      cases e with
      | submit p t =>
        rcases submit_cases t pm st p with ⟨hq, _⟩ | ⟨hq, _⟩
        · refine Or.inl ?_
          unfold queueIds
          rw [schedStep, hq]
          exact h
        · refine Or.inl ?_
          unfold queueIds
          rw [schedStep, hq, List.map_append]
          exact List.mem_append_left _ h
      | cycle t =>
        rcases runQueueCycle_cases t pm st with ⟨hq, _⟩ | ⟨next, rest', hst, hq, hl⟩
        · refine Or.inl ?_
          unfold queueIds
          rw [schedStep, hq]
          exact h
        · unfold queueIds at h
          rw [hst] at h
          simp only [List.map_cons] at h
          rcases List.mem_cons.mp h with h' | h'
          · refine Or.inr ?_
            unfold startedIds
            rw [schedStep, hl, List.map_append]
            refine List.mem_append_right _ ?_
            simp [h']
          · refine Or.inl ?_
            unfold queueIds
            rw [schedStep, hq]
            exact h'
    rcases hstep with h' | h'
    · exact ih (schedStep pm st e) a h'
    · exact Or.inr (mem_startedIds_schedRun_mono pm rest _ h')

/-- The FIFO invariant relating two ids `a` (enqueued earlier) and `b`
(enqueued later): either both are still queued with `a` ahead of `b`, or `a`
has started and `b` has not, or both have started with `a` logged first. -/
def FifoInv (a b : Nat) (st : SchedState) : Prop :=
  (List.Sublist [a, b] (queueIds st) ∧ a ∉ startedIds st ∧ b ∉ startedIds st) ∨
  (a ∈ startedIds st ∧ b ∉ startedIds st) ∨
  List.Sublist [a, b] (startedIds st)

theorem fifoInv_step (pm : Nat) (a b : Nat) (st : SchedState) (e : SchedEvent)
    (hab : a ≠ b) (hqn : (queueIds st).Nodup)
    (hfresh : ∀ p t, e = SchedEvent.submit p t → p.id ≠ a ∧ p.id ≠ b)
    (hinv : FifoInv a b st) : FifoInv a b (schedStep pm st e) := by
  cases e with
  | submit p t =>
    obtain ⟨hpa, hpb⟩ := hfresh p t rfl
    rcases submit_cases t pm st p with ⟨hq, hl⟩ | ⟨hq, hl⟩
    · -- admitted immediately: queue unchanged, log extended by p.id
      have hqids : queueIds (schedStep pm st (SchedEvent.submit p t)) = queueIds st := by
        unfold queueIds
        rw [schedStep, hq]
      have hsids : startedIds (schedStep pm st (SchedEvent.submit p t))
          = startedIds st ++ [p.id] := by
        unfold startedIds
        rw [schedStep, hl, List.map_append]
        rfl
      rcases hinv with ⟨h1, h2, h3⟩ | ⟨h1, h2⟩ | h1
      · refine Or.inl ⟨by rw [hqids]; exact h1, ?_, ?_⟩
        · rw [hsids]
          intro hmem
          rcases List.mem_append.mp hmem with hm | hm
          · exact h2 hm
          · simp only [List.mem_singleton] at hm
            exact hpa hm.symm
        · rw [hsids]
          intro hmem
          rcases List.mem_append.mp hmem with hm | hm
          · exact h3 hm
          · simp only [List.mem_singleton] at hm
            exact hpb hm.symm
      · refine Or.inr (Or.inl ⟨?_, ?_⟩)
        · rw [hsids]
          exact List.mem_append_left _ h1
        · rw [hsids]
          intro hmem
          rcases List.mem_append.mp hmem with hm | hm
          · exact h2 hm
          · simp only [List.mem_singleton] at hm
            exact hpb hm.symm
      · refine Or.inr (Or.inr ?_)
        rw [hsids]
        exact List.Sublist.trans h1 (List.sublist_append_left _ _)
    · -- queued: queue extended, log unchanged
      have hqids : queueIds (schedStep pm st (SchedEvent.submit p t))
          = queueIds st ++ [p.id] := by
        unfold queueIds
        rw [schedStep, hq, List.map_append]
        rfl
      have hsids : startedIds (schedStep pm st (SchedEvent.submit p t)) = startedIds st := by
        unfold startedIds
        rw [schedStep, hl]
      rcases hinv with ⟨h1, h2, h3⟩ | ⟨h1, h2⟩ | h1
      · refine Or.inl ⟨?_, by rw [hsids]; exact h2, by rw [hsids]; exact h3⟩
        rw [hqids]
        exact List.Sublist.trans h1 (List.sublist_append_left _ _)
      · exact Or.inr (Or.inl ⟨by rw [hsids]; exact h1, by rw [hsids]; exact h2⟩)
      · exact Or.inr (Or.inr (by rw [hsids]; exact h1))
  | cycle t =>
    rcases runQueueCycle_cases t pm st with ⟨hq, hl⟩ | ⟨next, rest, hst, hq, hl⟩
    · -- nothing started
      have hqids : queueIds (schedStep pm st (SchedEvent.cycle t)) = queueIds st := by
        unfold queueIds
        rw [schedStep, hq]
      have hsids : startedIds (schedStep pm st (SchedEvent.cycle t)) = startedIds st := by
        unfold startedIds
        rw [schedStep, hl]
      rw [FifoInv, hqids, hsids]
      exact hinv
    · -- head popped and started
      have hqids : queueIds (schedStep pm st (SchedEvent.cycle t))
          = rest.map (fun p => p.id) := by
        unfold queueIds
        rw [schedStep, hq]
      have hsids : startedIds (schedStep pm st (SchedEvent.cycle t))
          = startedIds st ++ [next.id] := by
        unfold startedIds
        rw [schedStep, hl, List.map_append]
        rfl
      have hqst : queueIds st = next.id :: rest.map (fun p => p.id) := by
        unfold queueIds
        rw [hst]
        rfl
      rcases hinv with ⟨h1, h2, h3⟩ | ⟨h1, h2⟩ | h1
      · rw [hqst] at h1
        by_cases hna : next.id = a
        · -- a starts now
          refine Or.inr (Or.inl ⟨?_, ?_⟩)
          · rw [hsids]
            refine List.mem_append_right _ ?_
            simp [hna]
          · rw [hsids]
            intro hmem
            rcases List.mem_append.mp hmem with hm | hm
            · exact h3 hm
            · simp only [List.mem_singleton] at hm
              exact hab (by rw [← hna, hm])
        · -- a is not the head, so neither is b (queue ids are nodup)
          have h1' : List.Sublist [a, b] (rest.map (fun p => p.id)) := by
            cases h1 with
            | cons _ h => exact h
            | cons₂ _ h => exact absurd rfl hna
          have hnb : next.id ≠ b := by
            intro hnb
            have hbmem : b ∈ rest.map (fun p => p.id) :=
              List.singleton_sublist.mp (List.Sublist.trans (by simp) h1')
            rw [hqst, hnb] at hqn
            exact (List.nodup_cons.mp hqn).1 hbmem
          refine Or.inl ⟨by rw [hqids]; exact h1', ?_, ?_⟩
          · rw [hsids]
            intro hmem
            rcases List.mem_append.mp hmem with hm | hm
            · exact h2 hm
            · simp only [List.mem_singleton] at hm
              exact hna hm.symm
          · rw [hsids]
            intro hmem
            rcases List.mem_append.mp hmem with hm | hm
            · exact h3 hm
            · simp only [List.mem_singleton] at hm
              exact hnb hm.symm
      · by_cases hnb : next.id = b
        · -- b starts now, after a
          refine Or.inr (Or.inr ?_)
          rw [hsids, hnb]
          exact List.Sublist.append (List.singleton_sublist.mpr h1) (List.Sublist.refl _)
        · refine Or.inr (Or.inl ⟨?_, ?_⟩)
          · rw [hsids]
            exact List.mem_append_left _ h1
          · rw [hsids]
            intro hmem
            rcases List.mem_append.mp hmem with hm | hm
            · exact h2 hm
            · simp only [List.mem_singleton] at hm
              exact hnb hm.symm
      · refine Or.inr (Or.inr ?_)
        rw [hsids]
        exact List.Sublist.trans h1 (List.sublist_append_left _ _)

theorem nodup_queue_submit_step (pm : Nat) (st : SchedState) (e : SchedEvent)
    (rest : List SchedEvent)
    (h : (queueIds st ++ submitIds (e :: rest)).Nodup) :
    (queueIds (schedStep pm st e) ++ submitIds rest).Nodup := by
  cases e with
  | submit p t =>
    have hids : submitIds (SchedEvent.submit p t :: rest) = p.id :: submitIds rest := rfl
    rw [hids] at h
    rcases submit_cases t pm st p with ⟨hq, _⟩ | ⟨hq, _⟩
    · have hqids : queueIds (schedStep pm st (SchedEvent.submit p t)) = queueIds st := by
        unfold queueIds
        rw [schedStep, hq]
      rw [hqids]
      refine List.Nodup.sublist ?_ h
      exact List.Sublist.append_left (List.sublist_cons_self _ _) _
    · have hqids : queueIds (schedStep pm st (SchedEvent.submit p t))
          = queueIds st ++ [p.id] := by
        unfold queueIds
        rw [schedStep, hq, List.map_append]
        rfl
      rw [hqids, List.append_assoc]
      exact h
  | cycle t =>
    have hids : submitIds (SchedEvent.cycle t :: rest) = submitIds rest := rfl
    rw [hids] at h
    rcases runQueueCycle_cases t pm st with ⟨hq, _⟩ | ⟨next, rest', hst, hq, _⟩
    · have hqids : queueIds (schedStep pm st (SchedEvent.cycle t)) = queueIds st := by
        unfold queueIds
        rw [schedStep, hq]
      rw [hqids]
      exact h
    · have hqids : queueIds (schedStep pm st (SchedEvent.cycle t))
          = rest'.map (fun p => p.id) := by
        unfold queueIds
        rw [schedStep, hq]
      have hqst : queueIds st = next.id :: rest'.map (fun p => p.id) := by
        unfold queueIds
        rw [hst]
        rfl
      rw [hqids]
      refine List.Nodup.sublist ?_ h
      rw [hqst]
      exact List.Sublist.append (List.sublist_cons_self _ _) (List.Sublist.refl _)

theorem fifoInv_run (pm : Nat) (a b : Nat) (hab : a ≠ b) :
    ∀ (evs : List SchedEvent) (st : SchedState),
    (queueIds st ++ submitIds evs).Nodup →
    a ∉ submitIds evs → b ∉ submitIds evs →
    FifoInv a b st → FifoInv a b (schedRun pm st evs) := by
  intro evs
  induction evs with
  | nil => intro st _ _ _ hinv; exact hinv
  | cons e rest ih =>
    intro st hn ha hb hinv
    have hqn : (queueIds st).Nodup := (List.nodup_append.mp hn).1
    have hfresh : ∀ p t, e = SchedEvent.submit p t → p.id ≠ a ∧ p.id ≠ b := by
      intro p t he
      subst he
      constructor
      · intro hpa
        exact ha (by rw [← hpa]; exact List.mem_cons_self _ _)
      · intro hpb
        exact hb (by rw [← hpb]; exact List.mem_cons_self _ _)
    have ha' : a ∉ submitIds rest := by
      intro hmem
      cases e with
      | submit p t => exact ha (List.mem_cons_of_mem _ hmem)
      | cycle t => exact ha hmem
    have hb' : b ∉ submitIds rest := by
      intro hmem
      cases e with
      | submit p t => exact hb (List.mem_cons_of_mem _ hmem)
      | cycle t => exact hb hmem
    exact ih (schedStep pm st e)
      (nodup_queue_submit_step pm st e rest hn) ha' hb'
      (fifoInv_step pm a b st e hab hqn hfresh hinv)

/-- C2 amended: among requests that are QUEUED (not admitted immediately at
submission), admission order equals submission order.  For any trace in
which request A is submitted (and queued) before request B is submitted (and
queued), if B is ever started then A was started no later: `[A.id, B.id]` is
a subsequence of the started log.  (The original claim fails because a NEW
submission can be admitted immediately while earlier requests for the same
key are still queued - see the counterexample.) -/
theorem C2_queued_fifo (pm : Nat) (e₁ e₂ e₃ : List SchedEvent)
    (A B : Pending) (tA tB : Nat)
    (hnodup : (submitIds ((((e₁ ++ [SchedEvent.submit A tA]) ++ e₂) ++
        [SchedEvent.submit B tB]) ++ e₃)).Nodup)
    (hA : canStartNow tA pm (schedRun pm {} e₁).quota A.model A.reservationTokens = false)
    (hB : canStartNow tB pm
        (schedRun pm {} ((e₁ ++ [SchedEvent.submit A tA]) ++ e₂)).quota
        B.model B.reservationTokens = false)
    (hmem : B.id ∈ startedIds (schedRun pm {} ((((e₁ ++ [SchedEvent.submit A tA]) ++ e₂) ++
        [SchedEvent.submit B tB]) ++ e₃))) :
    List.Sublist [A.id, B.id] (startedIds (schedRun pm {}
        ((((e₁ ++ [SchedEvent.submit A tA]) ++ e₂) ++ [SchedEvent.submit B tB]) ++ e₃))) := by
  -- name the intermediate states
  set st0 : SchedState := schedRun pm {} e₁ with hst0
  set stA : SchedState := submit tA pm st0 A with hstA
  set stMid : SchedState := schedRun pm stA e₂ with hstMid
  set stB : SchedState := submit tB pm stMid B with hstB
  have hrunA : schedRun pm {} (e₁ ++ [SchedEvent.submit A tA]) = stA := by
    rw [schedRun_append]
    rfl
  have hrunMid : schedRun pm {} ((e₁ ++ [SchedEvent.submit A tA]) ++ e₂) = stMid := by
    rw [schedRun_append, hrunA]
  have hrunB : schedRun pm {} (((e₁ ++ [SchedEvent.submit A tA]) ++ e₂) ++
      [SchedEvent.submit B tB]) = stB := by
    rw [schedRun_append, hrunMid]
    rfl
  have hrunFinal : schedRun pm {} ((((e₁ ++ [SchedEvent.submit A tA]) ++ e₂) ++
      [SchedEvent.submit B tB]) ++ e₃) = schedRun pm stB e₃ := by
    rw [schedRun_append, hrunB]
  rw [hrunFinal] at hmem ⊢
  -- the two queued submissions
  have hAq := submit_not_admitted tA pm st0 A hA
  have hBq := submit_not_admitted tB pm stMid B (by rw [hrunMid] at hB; exact hB)
  -- decompose the Nodup hypothesis
  have hids : submitIds ((((e₁ ++ [SchedEvent.submit A tA]) ++ e₂) ++
      [SchedEvent.submit B tB]) ++ e₃)
      = ((submitIds e₁ ++ [A.id]) ++ submitIds e₂) ++ ([B.id] ++ submitIds e₃) := by
    rw [submitIds_append, submitIds_append, submitIds_append, submitIds_append]
    simp only [submitIds, List.append_assoc]
  rw [hids] at hnodup
  obtain ⟨hnleft, hnright, hdisj⟩ := List.nodup_append.mp hnodup
  have hBid_notleft : B.id ∉ (submitIds e₁ ++ [A.id]) ++ submitIds e₂ := by
    intro hmemB
    exact hdisj hmemB (List.mem_append_left _ (List.mem_singleton.mpr rfl))
  have hAB : A.id ≠ B.id := by
    intro h
    exact hBid_notleft (by
      rw [← h]
      exact List.mem_append_left _ (List.mem_append_right _ (List.mem_singleton.mpr rfl)))
  have hB1 : B.id ∉ submitIds e₁ := fun h =>
    hBid_notleft (List.mem_append_left _ (List.mem_append_left _ h))
  have hB2 : B.id ∉ submitIds e₂ := fun h => hBid_notleft (List.mem_append_right _ h)
  have hB3 : B.id ∉ submitIds e₃ := by
    intro h
    have := (List.nodup_append.mp hnright).2.2
    exact this (List.mem_singleton.mpr rfl) h
  have hA3 : A.id ∉ submitIds e₃ := by
    intro h
    refine hdisj (List.mem_append_left _
      (List.mem_append_right _ (List.mem_singleton.mpr rfl))) ?_
    exact List.mem_append_right _ h
  -- B was never started before its own submission
  have hqueue_st0 : ∀ x, x ∈ queueIds st0 → x ∈ submitIds e₁ := by
    intro x hx
    have := queueIds_schedRun_sublist pm e₁ {}
    have hsub : List.Sublist (queueIds st0) (submitIds e₁) := by
      simpa [queueIds] using this
    exact hsub.subset hx
  have hstarted_st0 : ∀ x, x ∈ startedIds st0 → x ∈ submitIds e₁ := by
    intro x hx
    rcases mem_startedIds_schedRun_rev pm e₁ {} x hx with h | h | h
    · simp [startedIds] at h
    · simp [queueIds] at h
    · exact h
  have hqueue_stA : queueIds stA = queueIds st0 ++ [A.id] := by
    unfold queueIds
    rw [hAq.1, List.map_append]
    rfl
  have hstarted_stA : startedIds stA = startedIds st0 := by
    unfold startedIds
    rw [hAq.2]
  have hBnotMid : B.id ∉ startedIds stMid := by
    intro h
    rcases mem_startedIds_schedRun_rev pm e₂ stA B.id h with h' | h' | h'
    · rw [hstarted_stA] at h'
      exact hB1 (hstarted_st0 _ h')
    · rw [hqueue_stA] at h'
      rcases List.mem_append.mp h' with h'' | h''
      · exact hB1 (hqueue_st0 _ h'')
      · simp only [List.mem_singleton] at h''
        exact hAB h''.symm
    · exact hB2 h'
  have hstarted_stB : startedIds stB = startedIds stMid := by
    unfold startedIds
    rw [hBq.2]
  have hqueue_stB : queueIds stB = queueIds stMid ++ [B.id] := by
    unfold queueIds
    rw [hBq.1, List.map_append]
    rfl
  -- establish the invariant at stB
  have hinvB : FifoInv A.id B.id stB := by
    by_cases hAst : A.id ∈ startedIds stMid
    · refine Or.inr (Or.inl ⟨?_, ?_⟩)
      · rw [hstarted_stB]
        exact hAst
      · rw [hstarted_stB]
        exact hBnotMid
    · have hAinA : A.id ∈ queueIds stA := by
        rw [hqueue_stA]
        exact List.mem_append_right _ (List.mem_singleton.mpr rfl)
      rcases mem_queue_or_started_schedRun pm e₂ stA A.id hAinA with h' | h'
      · refine Or.inl ⟨?_, ?_, ?_⟩
        · rw [hqueue_stB]
          have : List.Sublist ([A.id] ++ [B.id]) (queueIds stMid ++ [B.id]) :=
            List.Sublist.append (List.singleton_sublist.mpr h') (List.Sublist.refl _)
          exact this
        · rw [hstarted_stB]
          exact hAst
        · rw [hstarted_stB]
          exact hBnotMid
      · exact absurd h' hAst
  -- Nodup for the remaining events
  have hqueue_stB_sub : List.Sublist (queueIds stB)
      (((submitIds e₁ ++ [A.id]) ++ submitIds e₂) ++ [B.id]) := by
    have h := queueIds_schedRun_sublist pm
      (((e₁ ++ [SchedEvent.submit A tA]) ++ e₂) ++ [SchedEvent.submit B tB]) {}
    rw [hrunB] at h
    have hids2 : submitIds (((e₁ ++ [SchedEvent.submit A tA]) ++ e₂) ++
        [SchedEvent.submit B tB]) = ((submitIds e₁ ++ [A.id]) ++ submitIds e₂) ++ [B.id] := by
      rw [submitIds_append, submitIds_append, submitIds_append]
      rfl
    rw [hids2] at h
    simpa [queueIds] using h
  have hn3 : (queueIds stB ++ submitIds e₃).Nodup := by
    refine List.Nodup.sublist ?_ hnodup
    rw [← List.append_assoc]
    exact List.Sublist.append hqueue_stB_sub (List.Sublist.refl _)
  -- run the invariant through e₃
  have hfinal := fifoInv_run pm A.id B.id hAB e₃ stB hn3 hA3 hB3 hinvB
  rcases hfinal with ⟨_, _, h3⟩ | ⟨_, h2⟩ | h1
  · exact absurd hmem h3
  · exact absurd hmem h2
  · exact h1

/-- Events before A's submission for the C2 witness trace. -/
def c2wPre : List SchedEvent :=
  [SchedEvent.submit (flashReq 0 100000) 100000, SchedEvent.cycle 100025]

/-- Events after B's submission for the C2 witness trace. -/
def c2wPost : List SchedEvent := [SchedEvent.cycle 106050, SchedEvent.cycle 113000]

/-- Witness for `C2_queued_fifo`: requests 1 and 2 are both queued behind an
admitted request 0 and are then started from the queue in FIFO order. -/
theorem C2_queued_fifo_witness :
    ((submitIds ((((c2wPre ++ [SchedEvent.submit (flashReq 1 102000) 102000]) ++ []) ++
        [SchedEvent.submit (flashReq 2 102010) 102010]) ++ c2wPost)).Nodup ∧
     canStartNow 102000 50000 (schedRun 50000 {} c2wPre).quota
        (flashReq 1 102000).model (flashReq 1 102000).reservationTokens = false ∧
     canStartNow 102010 50000
        (schedRun 50000 {} ((c2wPre ++ [SchedEvent.submit (flashReq 1 102000) 102000]) ++ [])).quota
        (flashReq 2 102010).model (flashReq 2 102010).reservationTokens = false ∧
     (flashReq 2 102010).id ∈ startedIds (schedRun 50000 {}
        ((((c2wPre ++ [SchedEvent.submit (flashReq 1 102000) 102000]) ++ []) ++
          [SchedEvent.submit (flashReq 2 102010) 102010]) ++ c2wPost))) ∧
    List.Sublist [(flashReq 1 102000).id, (flashReq 2 102010).id]
      (startedIds (schedRun 50000 {}
        ((((c2wPre ++ [SchedEvent.submit (flashReq 1 102000) 102000]) ++ []) ++
          [SchedEvent.submit (flashReq 2 102010) 102010]) ++ c2wPost))) :=
  ⟨⟨by decide, by decide, by decide, by decide⟩,
   C2_queued_fifo 50000 c2wPre [] c2wPost (flashReq 1 102000) (flashReq 2 102010)
     102000 102010 (by decide) (by decide) (by decide) (by decide)⟩
